import Mathlib

/-!
# dapr-by-example: order service and inventory service

A shallow embedding of the two Go services of the repository

* `src/orderservice-go/main.go` (HTTP handlers `createOrderHandler`,
  `getOrderHandler` and the helpers `saveOrder`, `getOrder`, `publishOrder`,
  `storeReceipt`), and
* `src/inventoryservice-go/main.go` (the topic handler `ordersHandler`),

together with a model of the two library layers they call: Go's
`encoding/json` (for the `Order` struct and for `map[string]interface{}`) and
the Dapr client (state store, pub/sub, output binding).

Modelling conventions.

* A Go `string` is a Lean `String`; a Go `[]byte` holding text is a `List Char`
  (`Bytes`).  Go strings are byte sequences and may hold invalid UTF-8, which
  `encoding/json` coerces to U+FFFD in both directions; the model covers the
  well-formed strings only.
* A Go `int` is an `Int` (64 bits wide, as on the platforms the services are
  built for); the only place its width matters is `strconv.ParseInt(_, 10, 64)`,
  which is modelled with its range check.
* A `float64` is met only as the amount of a decoded mapping; for the integers
  the services exchange it is modelled exactly: rounding to 53 bits, ties to
  even, and the shortest decimal that reads back, as `strconv` writes it.
* The sidecar is explicit state (`Sidecar`) plus the outcome of each call
  (`Faults`); a handler returns its response, the new sidecar state, the trace
  of client calls it issued and the lines it logged.
-/

namespace DaprByExample

/-- A block of bytes holding text, as its sequence of characters. -/
abbrev Bytes := List Char

/-! ## Decimal integers (`strconv`) -/

/-- The decimal digit character of `d < 10`. -/
def digitChar (d : Nat) : Char := Char.ofNat (48 + d)

/-- Most significant digits first, accumulated in front of `acc`. -/
def digitsAux : Nat → Nat → List Char → List Char
  | 0, _, acc => acc
  | fuel + 1, n, acc =>
    if n / 10 = 0 then digitChar (n % 10) :: acc
    else digitsAux fuel (n / 10) (digitChar (n % 10) :: acc)

/-- The digits of `strconv.FormatUint(n, 10)`. -/
def natDigits (n : Nat) : List Char := digitsAux (n + 1) n []

/-- The text of `strconv.FormatInt(n, 10)`, also what `%d` prints. -/
def formatInt (n : Int) : List Char :=
  if n < 0 then '-' :: natDigits n.natAbs else natDigits n.natAbs

/-- Whether `c` is one of `0` .. `9`. -/
def isDigit (c : Char) : Bool := decide (48 ≤ c.toNat) && decide (c.toNat ≤ 57)

/-- The value of a run of decimal digits. -/
def decVal (ds : List Char) : Nat := ds.foldl (fun a c => a * 10 + (c.toNat - 48)) 0

/-- The function `strconv.ParseInt(s, 10, 64)`: an optional sign, at least one digit, digits
only, and a value in the range of `int64`. -/
def parseInt (s : List Char) : Option Int :=
  let (neg, ds) : Bool × List Char :=
    match s with
    | c :: r => if c = '-' then (true, r) else if c = '+' then (false, r) else (false, s)
    | [] => (false, s)
  if ds.isEmpty || !ds.all isDigit then none
  else if neg then
    (if decVal ds ≤ 2 ^ 63 then some (-(decVal ds : Int)) else none)
  else
    (if decVal ds < 2 ^ 63 then some (decVal ds : Int) else none)

/-! ## JSON strings (`encoding/json`, string escaping and unquoting) -/

/-- A lower-case hexadecimal digit. -/
def hexDigit (n : Nat) : Char := if n < 10 then Char.ofNat (48 + n) else Char.ofNat (87 + n)

/-- The table `htmlSafeSet`: the ASCII characters that `json.Marshal` copies as they are, which
are all from the space on except the quote, the backslash and `<`, `>`, `&`. -/
def htmlSafe (c : Char) : Bool :=
  decide (32 ≤ c.toNat) && !(c.toNat = 34 || c.toNat = 92 || c.toNat = 60 || c.toNat = 62 ||
    c.toNat = 38)

/-- The escape of an ASCII character outside `htmlSafeSet`: a backslash before the quote and
the backslash, the short escapes of the named control characters, a `\u00` escape otherwise. -/
def escapeByte (c : Char) : List Char :=
  if c.toNat = 92 ∨ c.toNat = 34 then ['\\', c]
  else if c.toNat = 8 then ['\\', 'b']
  else if c.toNat = 12 then ['\\', 'f']
  else if c.toNat = 10 then ['\\', 'n']
  else if c.toNat = 13 then ['\\', 'r']
  else if c.toNat = 9 then ['\\', 't']
  else ['\\', 'u', '0', '0', hexDigit (c.toNat / 16), hexDigit (c.toNat % 16)]

/-- The escaping of one character by `json.Marshal` (HTML escaping on, as is the default): an
ASCII character is copied or escaped by `escapeByte`; U+2028 and U+2029 are written as `\u`
escapes; any other character is copied. -/
def escapeChar (c : Char) : List Char :=
  if c.toNat < 128 then (if htmlSafe c then [c] else escapeByte c)
  else if c.toNat = 8232 ∨ c.toNat = 8233 then
    ['\\', 'u', '2', '0', '2', hexDigit (c.toNat % 16)]
  else [c]

/-- The body of a JSON string literal for `s` (without the surrounding quotes). -/
def escapeString : List Char → List Char
  | [] => []
  | c :: cs => escapeChar c ++ escapeString cs

/-- A JSON string literal. -/
def quote (s : List Char) : List Char := '"' :: (escapeString s ++ ['"'])

/-- The value of a hexadecimal digit, either case. -/
def hexVal (c : Char) : Option Nat :=
  if 48 ≤ c.toNat ∧ c.toNat ≤ 57 then some (c.toNat - 48)
  else if 97 ≤ c.toNat ∧ c.toNat ≤ 102 then some (c.toNat - 87)
  else if 65 ≤ c.toNat ∧ c.toNat ≤ 70 then some (c.toNat - 55)
  else none

/-- The code unit of a `\uXXXX` escape (`getu4`). -/
def getu4 (a b c d : Char) : Option Nat :=
  match hexVal a, hexVal b, hexVal c, hexVal d with
  | some x, some y, some z, some w => some (((x * 16 + y) * 16 + z) * 16 + w)
  | _, _, _, _ => none

/-- The character of a one-letter escape. -/
def unescape (e : Char) : Option Char :=
  if e = '"' then some '"'
  else if e = '\\' then some '\\'
  else if e = '/' then some '/'
  else if e = 'b' then some (Char.ofNat 8)
  else if e = 'f' then some (Char.ofNat 12)
  else if e = 'n' then some (Char.ofNat 10)
  else if e = 'r' then some (Char.ofNat 13)
  else if e = 't' then some (Char.ofNat 9)
  else none

/-- The low surrogate that follows a high surrogate `hi`, when the text goes on with a `\u`
escape of one: the combined code point and the text after the pair. -/
def surrogatePair (hi : Nat) (cs : List Char) : Option (Nat × List Char) :=
  match cs with
  | b :: u :: a2 :: b2 :: c2 :: d2 :: rest =>
    if b = '\\' ∧ u = 'u' then
      match getu4 a2 b2 c2 d2 with
      | some lo =>
        if 55296 ≤ hi ∧ hi < 56320 ∧ 56320 ≤ lo ∧ lo < 57344 then
          some ((hi - 55296) * 1024 + (lo - 56320) + 65536, rest)
        else none
      | none => none
    else none
  | _ => none

/-- Reads a string literal after its opening quote: the decoded string and the text after
the closing quote.  Raw control characters and unknown escapes are rejected; a `\u` escape of a
surrogate that is not the first half of a valid pair decodes to U+FFFD. -/
def unquoteAux : Nat → List Char → Option (List Char × List Char)
  | 0, _ => none
  | _ + 1, [] => none
  | fuel + 1, c :: cs =>
    if c = '"' then some ([], cs)
    else if c = '\\' then
      match cs with
      | [] => none
      | e :: cs1 =>
        if e = 'u' then
          match cs1 with
          | a :: b :: c3 :: d :: cs2 =>
            match getu4 a b c3 d with
            | none => none
            | some rr =>
              if 55296 ≤ rr ∧ rr < 57344 then
                match surrogatePair rr cs2 with
                | some (cp, cs3) =>
                  (unquoteAux fuel cs3).map (fun p => (Char.ofNat cp :: p.1, p.2))
                | none => (unquoteAux fuel cs2).map (fun p => (Char.ofNat 65533 :: p.1, p.2))
              else (unquoteAux fuel cs2).map (fun p => (Char.ofNat rr :: p.1, p.2))
          | _ => none
        else
          match unescape e with
          | some ch => (unquoteAux fuel cs1).map (fun p => (ch :: p.1, p.2))
          | none => none
    else if c.toNat < 32 then none
    else (unquoteAux fuel cs).map (fun p => (c :: p.1, p.2))

/-- Reads a string literal after its opening quote. -/
def unquote (cs : List Char) : Option (List Char × List Char) := unquoteAux (cs.length + 1) cs

/-! ## JSON values (`encoding/json`, scanning) -/

/-- A JSON value; a number keeps its literal text. -/
inductive JSON where
  | null
  | bool (b : Bool)
  | num (lit : List Char)
  | str (s : List Char)
  | arr (xs : List JSON)
  | obj (kvs : List (List Char × JSON))

/-- JSON white space: space, tab, carriage return, line feed. -/
def isSpace (c : Char) : Bool := c.toNat = 32 || c.toNat = 9 || c.toNat = 13 || c.toNat = 10

/-- Drops leading white space. -/
def skipSpace : List Char → List Char
  | [] => []
  | c :: cs => if isSpace c then skipSpace cs else c :: cs

/-- Splits off the leading run of digits. -/
def takeDigits : List Char → List Char × List Char
  | [] => ([], [])
  | c :: cs => if isDigit c then ((c :: (takeDigits cs).1), (takeDigits cs).2) else ([], c :: cs)

/-- The integer part of a number: `0`, or a non-zero digit and more digits. -/
def scanInt (cs : List Char) : Option (List Char × List Char) :=
  match cs with
  | [] => none
  | c :: r =>
    if c = '0' then some (['0'], r)
    else if isDigit c then some (c :: (takeDigits r).1, (takeDigits r).2)
    else none

/-- The optional fraction of a number: a point and at least one digit. -/
def scanFrac (cs : List Char) : Option (List Char × List Char) :=
  match cs with
  | [] => some ([], [])
  | c :: r =>
    if c = '.' then
      (if (takeDigits r).1.isEmpty then none else some ('.' :: (takeDigits r).1, (takeDigits r).2))
    else some ([], c :: r)

/-- The optional exponent of a number: `e` or `E`, an optional sign, at least one digit. -/
def scanExp (cs : List Char) : Option (List Char × List Char) :=
  match cs with
  | [] => some ([], [])
  | c :: r =>
    if c = 'e' ∨ c = 'E' then
      match r with
      | [] => none
      | s :: r1 =>
        if s = '+' ∨ s = '-' then
          (if (takeDigits r1).1.isEmpty then none
           else some (c :: s :: (takeDigits r1).1, (takeDigits r1).2))
        else
          (if (takeDigits r).1.isEmpty then none
           else some (c :: (takeDigits r).1, (takeDigits r).2))
    else some ([], c :: r)

/-- After the optional minus sign: integer part, fraction, exponent. -/
def scanUnsigned (cs : List Char) : Option (List Char × List Char) :=
  match scanInt cs with
  | none => none
  | some (i, cs1) =>
    match scanFrac cs1 with
    | none => none
    | some (f, cs2) =>
      match scanExp cs2 with
      | none => none
      | some (e, cs3) => some (i ++ f ++ e, cs3)

/-- Reads a number literal: the literal and the text after it. -/
def scanNumber (cs : List Char) : Option (List Char × List Char) :=
  match cs with
  | [] => none
  | c :: r =>
    if c = '-' then (scanUnsigned r).map (fun p => ('-' :: p.1, p.2))
    else scanUnsigned (c :: r)

/-- Drops the word `w` from the front of `cs`, if it is there. -/
def dropWord : List Char → List Char → Option (List Char)
  | [], cs => some cs
  | _ :: _, [] => none
  | w :: ws, c :: cs => if w = c then dropWord ws cs else none

/-- The nesting limit of the scanner (`maxNestingDepth`). -/
def maxNestingDepth : Nat := 10000

mutual
/-- Reads one JSON value from text without leading white space; `depth` counts the enclosing
arrays and objects. -/
def parseValue : Nat → Nat → List Char → Option (JSON × List Char)
  | 0, _, _ => none
  | _ + 1, _, [] => none
  | fuel + 1, depth, c :: r =>
    if c = '{' then
      (if maxNestingDepth ≤ depth then none
       else
        match skipSpace r with
        | [] => none
        | c1 :: r1 =>
          if c1 = '}' then some (JSON.obj [], r1)
          else (parseMembers fuel (depth + 1) (c1 :: r1)).map (fun p => (JSON.obj p.1, p.2)))
    else if c = '[' then
      (if maxNestingDepth ≤ depth then none
       else
        match skipSpace r with
        | [] => none
        | c1 :: r1 =>
          if c1 = ']' then some (JSON.arr [], r1)
          else (parseElements fuel (depth + 1) (c1 :: r1)).map (fun p => (JSON.arr p.1, p.2)))
    else if c = '"' then (unquote r).map (fun p => (JSON.str p.1, p.2))
    else if c = 't' then (dropWord ['r', 'u', 'e'] r).map (fun r1 => (JSON.bool true, r1))
    else if c = 'f' then (dropWord ['a', 'l', 's', 'e'] r).map (fun r1 => (JSON.bool false, r1))
    else if c = 'n' then (dropWord ['u', 'l', 'l'] r).map (fun r1 => (JSON.null, r1))
    else (scanNumber (c :: r)).map (fun p => (JSON.num p.1, p.2))
/-- Reads the members of an object up to and including its closing brace; the text starts at
the first key. -/
def parseMembers : Nat → Nat → List Char → Option (List (List Char × JSON) × List Char)
  | 0, _, _ => none
  | _ + 1, _, [] => none
  | fuel + 1, depth, c :: r =>
    if c = '"' then
      match unquote r with
      | none => none
      | some (k, r1) =>
        match skipSpace r1 with
        | [] => none
        | c2 :: r2 =>
          if c2 = ':' then
            match parseValue fuel depth (skipSpace r2) with
            | none => none
            | some (v, r3) =>
              match skipSpace r3 with
              | [] => none
              | c4 :: r4 =>
                if c4 = ',' then
                  (parseMembers fuel depth (skipSpace r4)).map (fun p => ((k, v) :: p.1, p.2))
                else if c4 = '}' then some ([(k, v)], r4)
                else none
          else none
    else none
/-- Reads the elements of an array up to and including its closing bracket. -/
def parseElements : Nat → Nat → List Char → Option (List JSON × List Char)
  | 0, _, _ => none
  | fuel + 1, depth, cs =>
    match parseValue fuel depth cs with
    | none => none
    | some (v, r3) =>
      match skipSpace r3 with
      | [] => none
      | c4 :: r4 =>
        if c4 = ',' then
          (parseElements fuel depth (skipSpace r4)).map (fun p => (v :: p.1, p.2))
        else if c4 = ']' then some ([v], r4)
        else none
end

/-- Reads the first JSON value of `data`: the value and the text after it.  The recursion is
bounded by the length of the text. -/
def parseJSON (data : Bytes) : Option (JSON × List Char) :=
  parseValue (data.length + 1) 0 (skipSpace data)

/-! ## The `Order` struct and its JSON coding -/

/-- The struct `Order` of both services: `OrderID string` under the JSON name `orderId`,
`Amount int` under the JSON name `amount`. -/
structure Order where
  orderId : String
  amount : Int
  deriving DecidableEq, Repr

/-- The errors of `encoding/json`. -/
inductive JsonError where
  /-- Text that is not JSON (`SyntaxError`, unexpected end of input). -/
  | invalid
  /-- A JSON value that does not fit the Go type it is stored into (`UnmarshalTypeError`). -/
  | mismatch (value : String) (field : String)
  /-- A Go value that has no JSON form (`UnsupportedTypeError`, `UnsupportedValueError`). -/
  | unsupported (what : String)
  deriving DecidableEq, Repr

deriving instance DecidableEq for Except

/-- The text `%v` prints for an error. -/
def JsonError.msg : JsonError → String
  | .invalid => "invalid character or unexpected end of JSON input"
  | .mismatch value field =>
    "json: cannot unmarshal " ++ value ++ " into Go struct field " ++ field
  | .unsupported what => "json: unsupported " ++ what

/-- The function `json.Marshal(order)`: the two fields in declaration order. -/
def marshalOrder (o : Order) : Bytes :=
  '{' :: (quote "orderId".data ++ ':' :: (quote o.orderId.data ++
    ',' :: (quote "amount".data ++ ':' :: (formatInt o.amount ++ ['}']))))

/-- The folding of a key for the case-insensitive match of struct fields. -/
def foldKey (k : List Char) : List Char := k.map Char.toLower

/-- The kind of a JSON value, as error messages name it. -/
def JSON.kind : JSON → String
  | .null => "null"
  | .bool _ => "bool"
  | .num lit => "number " ++ String.mk lit
  | .str _ => "string"
  | .arr _ => "array"
  | .obj _ => "object"

/-- Stores one member of an object into the struct: a key that matches `orderId` or `amount`
(ignoring case) sets that field, any other key is skipped; `null` leaves the field as it is; a
value of the wrong kind, or a number that `strconv.ParseInt` rejects, leaves the field as it is
and is remembered as the error, the first one being kept. -/
def storeMember (st : Order × Option JsonError) (kv : List Char × JSON) :
    Order × Option JsonError :=
  if foldKey kv.1 = "orderid".data then
    match kv.2 with
    | .str s => ({ st.1 with orderId := String.mk s }, st.2)
    | .null => st
    | v => (st.1, st.2.orElse (fun _ => some (.mismatch v.kind "Order.orderId of type string")))
  else if foldKey kv.1 = "amount".data then
    match kv.2 with
    | .num lit =>
      match parseInt lit with
      | some n => ({ st.1 with amount := n }, st.2)
      | none =>
        (st.1, st.2.orElse (fun _ => some (.mismatch (JSON.num lit).kind "Order.amount of type int")))
    | .null => st
    | v => (st.1, st.2.orElse (fun _ => some (.mismatch v.kind "Order.amount of type int")))
  else st

/-- Stores a JSON value into the struct `order`: `null` leaves it as it is, an object sets
the fields its members name, anything else is a type error. -/
def storeOrder (order : Order) (v : JSON) : Except JsonError Order :=
  match v with
  | .null => .ok order
  | .obj kvs =>
    match kvs.foldl storeMember (order, none) with
    | (o, none) => .ok o
    | (_, some e) => .error e
  | v => .error (.mismatch v.kind "Go value of type main.Order")

/-- The function `json.Unmarshal(data, &order)` for a zero `order`: the whole of `data` is one
JSON value, white space around it apart. -/
def unmarshalOrder (data : Bytes) : Except JsonError Order :=
  match parseJSON data with
  | none => .error .invalid
  | some (v, rest) =>
    if (skipSpace rest).isEmpty then storeOrder ⟨"", 0⟩ v else .error .invalid

/-- The call `json.NewDecoder(body).Decode(&order)` for a zero `order`: the first JSON value
of the stream is decoded and what follows it is left unread. -/
def decodeOrder (body : Bytes) : Except JsonError Order :=
  match parseJSON body with
  | none => .error .invalid
  | some (v, _) => storeOrder ⟨"", 0⟩ v

/-! ## Base64 (`encoding/base64`, `StdEncoding`) -/

/-- The UTF-8 bytes of text. -/
def utf8Bytes (s : List Char) : List Nat :=
  match s with
  | [] => []
  | c :: cs => (String.utf8EncodeChar c).map UInt8.toNat ++ utf8Bytes cs

/-- The character of a six-bit value in the standard alphabet. -/
def base64Char (n : Nat) : Char :=
  if n < 26 then Char.ofNat (65 + n)
  else if n < 52 then Char.ofNat (71 + n)
  else if n < 62 then Char.ofNat (n - 4)
  else if n = 62 then '+'
  else '/'

/-- The standard, padded base64 text of a list of bytes. -/
def base64Encode : List Nat → List Char
  | [] => []
  | [a] => [base64Char (a / 4), base64Char (a % 4 * 16), '=', '=']
  | [a, b] => [base64Char (a / 4), base64Char (a % 4 * 16 + b / 16), base64Char (b % 16 * 4), '=']
  | a :: b :: c :: rest =>
    base64Char (a / 4) :: base64Char (a % 4 * 16 + b / 16) ::
      base64Char (b % 16 * 4 + c / 64) :: base64Char (c % 64) :: base64Encode rest

/-! ## Numbers of type `float64` (`strconv.ParseFloat`, `strconv.AppendFloat`) -/

/-- Counts binary digits. -/
def bitLenAux : Nat → Nat → Nat
  | 0, _ => 0
  | fuel + 1, n => if n = 0 then 0 else bitLenAux fuel (n / 2) + 1

/-- The number of binary digits of `n`. -/
def bitLen (n : Nat) : Nat := bitLenAux n n

/-- The `float64` nearest to the natural number `n`, ties going to the even significand, as
`strconv.ParseFloat` gives it for the digits of `n` (below the overflow threshold): the bits
below the 53 of the significand are rounded away. -/
def roundFloat64 (n : Nat) : Nat :=
  let e := bitLen n - 53
  let q := n / 2 ^ e
  let r := n % 2 ^ e
  if 2 * r < 2 ^ e then q * 2 ^ e
  else if 2 ^ e < 2 * r then (q + 1) * 2 ^ e
  else if q % 2 = 0 then q * 2 ^ e
  else (q + 1) * 2 ^ e

/-- The `float64` that decoding the digits of the integer `n` gives. -/
def float64OfInt (n : Int) : Int :=
  if n < 0 then -(roundFloat64 n.natAbs : Int) else (roundFloat64 n.natAbs : Int)

/-- Whether the decimal `x` reads back as the positive integral `float64` `v`: it lies
between the midpoints to the neighbours of `v`, the midpoints included when the significand of
`v` is even.  All values are scaled by `2 ^ 54`, which makes the midpoints integers; the lower
neighbour of a power of two is at half the distance. -/
def readsBackAs (v x : Nat) : Bool :=
  let len := bitLen v
  let half := 2 ^ len
  let hi := v * 2 ^ 54 + half
  let lo := if v = 2 ^ (len - 1) then v * 2 ^ 54 - half / 2 else v * 2 ^ 54 - half
  let significand := v * 2 ^ (53 - len) / 2 ^ (len - 53)
  if significand % 2 = 0 then decide (lo ≤ x * 2 ^ 54) && decide (x * 2 ^ 54 ≤ hi)
  else decide (lo < x * 2 ^ 54) && decide (x * 2 ^ 54 < hi)

/-- The multiple of `10 ^ p` that reads back as `v` and is nearest to `v`, if there is one:
`v` rounded down or up to a multiple of `10 ^ p`, and of two that read back the nearer one, the
even one at a tie. -/
def shortestAt (v p : Nat) : Option Nat :=
  let m := 10 ^ p
  let down := v / m * m
  let up := down + m
  if readsBackAs v down && readsBackAs v up then
    (if 2 * (v - down) < m then some down
     else if m < 2 * (v - down) then some up
     else if (down / m) % 2 = 0 then some down
     else some up)
  else if readsBackAs v down then some down
  else if readsBackAs v up then some up
  else none

/-- The search for the shortest decimal, from the multiples of `10 ^ p` downwards. -/
def shortestFrom (v : Nat) : Nat → Nat
  | 0 => v
  | p + 1 =>
    match shortestAt v (p + 1) with
    | some c => c
    | none => shortestFrom v p

/-- The shortest decimal that reads back as the positive integral `float64` `v` (the digits
of `strconv.AppendFloat` with precision `-1`), as the integer it denotes. -/
def shortestDecimal (v : Nat) : Nat := shortestFrom v (natDigits v).length

/-- Drops the zeros at the end of a run of digits. -/
def dropZeros (ds : List Char) : List Char := (ds.reverse.dropWhile (fun c => c = '0')).reverse

/-- The format `e` of a decimal: the first digit, a point and the further digits if there
are any, and the exponent with its sign. -/
def formatExp (c : Nat) : List Char :=
  match dropZeros (natDigits c) with
  | [] => ['0']
  | [d] => d :: 'e' :: '+' :: natDigits ((natDigits c).length - 1)
  | d :: ds => d :: '.' :: (ds ++ 'e' :: '+' :: natDigits ((natDigits c).length - 1))

/-- The number literal `json.Marshal` writes for the integral `float64` `v`: its shortest
decimal, in the format `f` below `1e21` and in the format `e` from there on. -/
def formatFloat64 (v : Int) : Bytes :=
  if v = 0 then ['0']
  else if v.natAbs < 10 ^ 21 then
    (if v < 0 then '-' :: natDigits (shortestDecimal v.natAbs)
     else natDigits (shortestDecimal v.natAbs))
  else
    (if v < 0 then '-' :: formatExp (shortestDecimal v.natAbs)
     else formatExp (shortestDecimal v.natAbs))

/-! ## Dynamic values (`interface{}`) and their JSON form -/

mutual
/-- A value of type `interface{}`, as far as the services meet one. -/
inductive Dyn where
  /-- The value `nil`. -/
  | null
  | bool (b : Bool)
  /-- A Go `int`. -/
  | int (n : Int)
  /-- A `float64`, given by the number literal `json.Marshal` writes for it; `none` for NaN
  and the infinities, which have no JSON form. -/
  | float (lit : Option Bytes)
  | str (s : String)
  /-- A `[]byte`. -/
  | bytes (b : Bytes)
  /-- A `[]interface{}`. -/
  | arr (xs : DynList)
  /-- A `map[string]interface{}`; the keys of a Go map are distinct. -/
  | map (kvs : DynFields)
  /-- A value of a type without JSON form (a channel, a function), named by its type. -/
  | other (typeName : String)
/-- The elements of a `[]interface{}`. -/
inductive DynList where
  | nil
  | cons (x : Dyn) (xs : DynList)
/-- The entries of a `map[string]interface{}`. -/
inductive DynFields where
  | nil
  | cons (k : String) (v : Dyn) (rest : DynFields)
end

/-- The name `%T` prints for the dynamic type of a value. -/
def Dyn.typeName : Dyn → String
  | .null => "<nil>"
  | .bool _ => "bool"
  | .int _ => "int"
  | .float _ => "float64"
  | .str _ => "string"
  | .bytes _ => "[]uint8"
  | .arr _ => "[]interface \x7b\x7d"
  | .map _ => "map[string]interface \x7b\x7d"
  | .other t => t

/-- The order of `strings.Compare` on keys: lexicographic by bytes, which for well-formed
strings is lexicographic by code points. -/
def keyLess : List Char → List Char → Bool
  | [], [] => false
  | [], _ :: _ => true
  | _ :: _, [] => false
  | a :: as, b :: bs => if a.toNat < b.toNat then true else if b.toNat < a.toNat then false
    else keyLess as bs

/-- Inserts an entry into a list of entries sorted by key. -/
def insertByKey (e : String × Except JsonError Bytes) :
    List (String × Except JsonError Bytes) → List (String × Except JsonError Bytes)
  | [] => [e]
  | x :: xs => if keyLess e.1.data x.1.data then e :: x :: xs else x :: insertByKey e xs

/-- Sorts entries by key, as `json.Marshal` does with the keys of a map. -/
def sortByKey : List (String × Except JsonError Bytes) → List (String × Except JsonError Bytes)
  | [] => []
  | x :: xs => insertByKey x (sortByKey xs)

/-- Joins encoded elements with commas; the first element that failed to encode fails the
whole. -/
def joinElements : List (Except JsonError Bytes) → Except JsonError Bytes
  | [] => .ok []
  | x :: rest =>
    match x with
    | .error e => .error e
    | .ok a =>
      match rest with
      | [] => .ok a
      | _ :: _ =>
        match joinElements rest with
        | .error e => .error e
        | .ok b => .ok (a ++ ',' :: b)

/-- One member of an object: the quoted key, a colon, the encoded value. -/
def encodeMember (e : String × Except JsonError Bytes) : Except JsonError Bytes :=
  match e.2 with
  | .error err => .error err
  | .ok v => .ok (quote e.1.data ++ ':' :: v)

mutual
/-- The function `json.Marshal` on a dynamic value. -/
def marshalDyn : Dyn → Except JsonError Bytes
  | .null => .ok ['n', 'u', 'l', 'l']
  | .bool b => .ok (if b then ['t', 'r', 'u', 'e'] else ['f', 'a', 'l', 's', 'e'])
  | .int n => .ok (formatInt n)
  | .float (some lit) => .ok lit
  | .float none => .error (.unsupported "value: NaN or Inf")
  | .str s => .ok (quote s.data)
  | .bytes b => .ok ('"' :: (base64Encode (utf8Bytes b) ++ ['"']))
  | .arr xs =>
    match joinElements (marshalList xs) with
    | .error e => .error e
    | .ok body => .ok ('[' :: (body ++ [']']))
  | .map kvs =>
    match joinElements ((sortByKey (marshalFields kvs)).map encodeMember) with
    | .error e => .error e
    | .ok body => .ok ('{' :: (body ++ ['}']))
  | .other t => .error (.unsupported ("type: " ++ t))
/-- The encodings of the elements of a slice. -/
def marshalList : DynList → List (Except JsonError Bytes)
  | .nil => []
  | .cons x xs => marshalDyn x :: marshalList xs
/-- The encodings of the values of a map, each with its key. -/
def marshalFields : DynFields → List (String × Except JsonError Bytes)
  | .nil => []
  | .cons k v rest => (k, marshalDyn v) :: marshalFields rest
end

/-! ## The Dapr client (`github.com/dapr/go-sdk/client`) -/

/-- The calls the order service makes on its Dapr client. -/
inductive Call where
  | saveState (storeName key : String) (data : Bytes)
  | getState (storeName key : String)
  | publishEvent (pubsubName topicName : String) (data : Order)
  | invokeBinding (name operation : String) (data : Bytes) (metadata : List (String × String))
  deriving DecidableEq, Repr

/-- What lies behind the sidecar: the values of the state stores by store name and key, the
events published by pub/sub component and topic (as the JSON bytes on the wire), and the
requests the output bindings carried out. -/
structure Sidecar where
  state : List ((String × String) × Bytes)
  events : List ((String × String) × Bytes)
  bindings : List Call
  deriving DecidableEq, Repr

/-- The outcome of the calls of one request: for each kind of call the error it fails with,
or `none` when it succeeds. -/
structure Faults where
  saveState : Option String
  getState : Option String
  publishEvent : Option String
  invokeBinding : Option String
  deriving DecidableEq, Repr

/-- The client handle `daprClient` with what it talks to, and the calls issued on it so far,
oldest first. -/
structure Client where
  faults : Faults
  sidecar : Sidecar
  trace : List Call
  deriving DecidableEq, Repr

/-- The call `daprClient.SaveState(ctx, storeName, key, data, nil)`. -/
def Client.saveState (c : Client) (storeName key : String) (data : Bytes) :
    Option String × Client :=
  match c.faults.saveState with
  | some err => (some err, { c with trace := c.trace ++ [Call.saveState storeName key data] })
  | none =>
    (none, { c with
      sidecar := { c.sidecar with state := ((storeName, key), data) :: c.sidecar.state }
      trace := c.trace ++ [Call.saveState storeName key data] })

/-- The call `daprClient.GetState(ctx, storeName, key, nil)`: the value of the item, `none`
for the nil value of an absent key. -/
def Client.getState (c : Client) (storeName key : String) :
    Except String (Option Bytes) × Client :=
  match c.faults.getState with
  | some err => (.error err, { c with trace := c.trace ++ [Call.getState storeName key] })
  | none =>
    (.ok (c.sidecar.state.lookup (storeName, key)),
      { c with trace := c.trace ++ [Call.getState storeName key] })

/-- The call `daprClient.PublishEvent(ctx, pubsubName, topicName, order)`; the client sends the
JSON form of the struct. -/
def Client.publishEvent (c : Client) (pubsubName topicName : String) (data : Order) :
    Option String × Client :=
  match c.faults.publishEvent with
  | some err =>
    (some err, { c with trace := c.trace ++ [Call.publishEvent pubsubName topicName data] })
  | none =>
    (none, { c with
      sidecar := { c.sidecar with
        events := c.sidecar.events ++ [((pubsubName, topicName), marshalOrder data)] }
      trace := c.trace ++ [Call.publishEvent pubsubName topicName data] })

/-- The call `daprClient.InvokeBinding(ctx, req)`. -/
def Client.invokeBinding (c : Client) (name operation : String) (data : Bytes)
    (metadata : List (String × String)) : Option String × Client :=
  match c.faults.invokeBinding with
  | some err =>
    (some err, { c with trace := c.trace ++ [Call.invokeBinding name operation data metadata] })
  | none =>
    (none, { c with
      sidecar := { c.sidecar with
        bindings := c.sidecar.bindings ++ [Call.invokeBinding name operation data metadata] }
      trace := c.trace ++ [Call.invokeBinding name operation data metadata] })

/-! ## The order service (`src/orderservice-go/main.go`) -/

/-- The part of an `*http.Request` the handlers read. -/
structure Request where
  method : String
  path : String
  body : Bytes
  deriving DecidableEq, Repr

/-- What a handler wrote to its `http.ResponseWriter`. -/
structure Response where
  status : Nat
  header : List (String × String)
  body : Bytes
  deriving DecidableEq, Repr

/-- The function `http.Error(w, msg, code)`: a plain-text response, the message and a line
feed. -/
def httpError (msg : String) (code : Nat) : Response :=
  { status := code
    header := [("Content-Type", "text/plain; charset=utf-8"), ("X-Content-Type-Options", "nosniff")]
    body := msg.data ++ ['\n'] }

/-- The run of a handler: its response, the client after it, and the lines it logged. -/
structure Run where
  response : Response
  client : Client
  log : List String
  deriving DecidableEq, Repr

/-- The function `saveOrder`: the JSON form of the order under its `OrderID` in the store
`statestore`. -/
def saveOrder (c : Client) (order : Order) : Option String × Client :=
  let orderData := marshalOrder order
  c.saveState "statestore" order.orderId orderData

/-- The function `getOrder`: `.ok none` is the result `nil, nil` of an order that is not
found. -/
def getOrder (c : Client) (orderID : String) : Except String (Option Order) × Client :=
  match c.getState "statestore" orderID with
  | (.error err, c1) => (.error err, c1)
  | (.ok none, c1) => (.ok none, c1)
  | (.ok (some value), c1) =>
    match unmarshalOrder value with
    | .error err => (.error err.msg, c1)
    | .ok order => (.ok (some order), c1)

/-- The function `publishOrder`. -/
def publishOrder (c : Client) (order : Order) : Option String × Client :=
  c.publishEvent "pubsub" "orders" order

/-- The function `storeReceipt`. -/
def storeReceipt (c : Client) (order : Order) : Option String × Client :=
  let data := ("Order receipt for " ++ order.orderId).data
  c.invokeBinding "storage" "create" (base64Encode (utf8Bytes data))
    [("blobName", order.orderId ++ ".txt"), ("key", order.orderId ++ ".txt"),
      ("fileName", order.orderId ++ ".txt")]

/-- The log line of a failed step, if it failed. -/
def logError (what : String) (err : Option String) : List String :=
  match err with
  | some e => [what ++ " error: " ++ e]
  | none => []

/-- The handler `createOrderHandler(daprClient)`. -/
def createOrderHandler (c : Client) (r : Request) : Run :=
  if r.method ≠ "POST" then
    { response := httpError "method not allowed" 405, client := c, log := [] }
  else
    match decodeOrder r.body with
    | .error err =>
      { response := httpError "invalid payload" 400, client := c,
        log := ["Failed to decode order: " ++ err.msg] }
    | .ok order =>
      if order.orderId = "" then
        { response := httpError "orderId is required" 400, client := c, log := [] }
      else if order.amount ≤ 0 then
        { response := httpError "amount must be positive" 400, client := c, log := [] }
      else
        match saveOrder c order with
        | (some err, c1) =>
          { response := httpError "failed to save order" 500, client := c1,
            log := logError "saveOrder" (some err) }
        | (none, c1) =>
          let p := publishOrder c1 order
          let s := storeReceipt p.2 order
          { response := { status := 202, header := [], body := [] }
            client := s.2
            log := logError "publishOrder" p.1 ++ logError "storeReceipt" s.1 ++
              ["Order " ++ order.orderId ++ " created successfully"] }

/-- The handler `getOrderHandler(daprClient)`.  The result is `none` when the slice expression
`r.URL.Path[len("/orders/"):]` is out of range; the route `/orders/` only delivers paths that
start with `/orders/`, whose first eight bytes are eight characters. -/
def getOrderHandler (c : Client) (r : Request) : Option Run :=
  if r.method ≠ "GET" then
    some { response := httpError "method not allowed" 405, client := c, log := [] }
  else if r.path.data.length < 8 then none
  else
    let orderID := String.mk (r.path.data.drop 8)
    if orderID = "" then
      some { response := httpError "order ID is required" 400, client := c, log := [] }
    else
      match getOrder c orderID with
      | (.error err, c1) =>
        some { response := httpError "failed to get order" 500, client := c1,
               log := ["getOrder error: " ++ err] }
      | (.ok none, c1) =>
        some { response := httpError "order not found" 404, client := c1, log := [] }
      | (.ok (some order), c1) =>
        some { response :=
                { status := 200, header := [("Content-Type", "application/json")],
                  body := marshalOrder order ++ ['\n'] }
               client := c1, log := [] }

/-! ## The inventory service (`src/inventoryservice-go/main.go`) -/

/-- The part of a `common.TopicEvent` the handler reads. -/
structure TopicEvent where
  data : Dyn

/-- The result `(retry, err)` of the topic handler, and the lines it logged. -/
structure Outcome where
  retry : Bool
  err : Option JsonError
  log : List String
  deriving DecidableEq, Repr

/-- The part of `ordersHandler` after the type switch: validation and the log lines of a
processed order; `now` is the text of `time.Now().Format("2006-01-02 15:04:05")`. -/
def processOrder (now : String) (order : Order) : Outcome :=
  if order.orderId = "" then
    { retry := false, err := none, log := ["error: received order with empty OrderID"] }
  else if order.amount ≤ 0 then
    { retry := false, err := none,
      log := ["error: received order " ++ order.orderId ++ " with invalid amount: " ++
        String.mk (formatInt order.amount)] }
  else
    { retry := false, err := none,
      log := ["Inventory service received order: " ++ order.orderId ++ " (amount: " ++
          String.mk (formatInt order.amount) ++ ")",
        "[INVENTORY] 📦 Received order: " ++ order.orderId ++ " (amount: $" ++
          String.mk (formatInt order.amount) ++ ") - " ++ now,
        "[INVENTORY] ✅ Order " ++ order.orderId ++ " processed successfully"] }

/-- The handler `ordersHandler`. -/
def ordersHandler (now : String) (e : TopicEvent) : Outcome :=
  match e.data with
  | .bytes data =>
    match unmarshalOrder data with
    | .error err =>
      { retry := false, err := some err,
        log := ["error unmarshaling order from bytes: " ++ err.msg] }
    | .ok order => processOrder now order
  | .map kvs =>
    match marshalDyn (.map kvs) with
    | .error err =>
      { retry := false, err := some err, log := ["error marshaling map data: " ++ err.msg] }
    | .ok dataBytes =>
      match unmarshalOrder dataBytes with
      | .error err =>
        { retry := false, err := some err,
          log := ["error unmarshaling order from map: " ++ err.msg] }
      | .ok order => processOrder now order
  | d => { retry := false, err := none, log := ["error: unexpected data type " ++ d.typeName] }

/-! ## Notions used to state the properties -/

/-- The mapping that `json.Unmarshal` into an `interface{}` gives for the JSON of an order,
which is the form in which a payload reaches the handler already decoded: the `orderId` as a
string and the `amount` as the `float64` nearest to it. -/
def decodedMapping (o : Order) : Dyn :=
  .map (.cons "orderId" (.str o.orderId)
    (.cons "amount" (.float (some (formatFloat64 (float64OfInt o.amount)))) .nil))

/-- The order that the type switch of `ordersHandler` decodes from the data of an event;
`none` when the handler returns from inside the switch. -/
def normalise (d : Dyn) : Option Order :=
  match d with
  | .bytes data => (unmarshalOrder data).toOption
  | .map kvs =>
    match marshalDyn (.map kvs) with
    | .error _ => none
    | .ok dataBytes => (unmarshalOrder dataBytes).toOption
  | _ => none

/-- The calls a run issued on the client `c` it started from. -/
def issued (c : Client) (run : Run) : List Call := run.client.trace.drop c.trace.length

/-- The three lines `ordersHandler` logs for an order it processes. -/
def processedLog (now : String) (o : Order) : List String :=
  ["Inventory service received order: " ++ o.orderId ++ " (amount: " ++
      String.mk (formatInt o.amount) ++ ")",
    "[INVENTORY] 📦 Received order: " ++ o.orderId ++ " (amount: $" ++
      String.mk (formatInt o.amount) ++ ") - " ++ now,
    "[INVENTORY] ✅ Order " ++ o.orderId ++ " processed successfully"]

/-- The line `ordersHandler` logs for an order it drops. -/
def dropLine (o : Order) : String :=
  if o.orderId = "" then "error: received order with empty OrderID"
  else "error: received order " ++ o.orderId ++ " with invalid amount: " ++
    String.mk (formatInt o.amount)

/-- The first eight characters of a line. -/
def lineStart (s : String) : List Char := s.data.take 8

/-- The call of `saveOrder` for an order. -/
def saveCall (o : Order) : Call := Call.saveState "statestore" o.orderId (marshalOrder o)

/-- The call of `publishOrder` for an order. -/
def publishCall (o : Order) : Call := Call.publishEvent "pubsub" "orders" o

/-- The call of `storeReceipt` for an order. -/
def receiptCall (o : Order) : Call :=
  Call.invokeBinding "storage" "create"
    (base64Encode (utf8Bytes ("Order receipt for " ++ o.orderId).data))
    [("blobName", o.orderId ++ ".txt"), ("key", o.orderId ++ ".txt"),
      ("fileName", o.orderId ++ ".txt")]

/-! ## Lemmas on the JSON coding -/

theorem digitChar_toNat : ∀ k, k < 10 → (digitChar k).toNat = 48 + k := by decide

theorem isDigit_digitChar : ∀ k, k < 10 → isDigit (digitChar k) = true := by decide

theorem digitChar_eq_zero : ∀ k, k < 10 → digitChar k = '0' → k = 0 := by decide

theorem decVal_append_singleton (ds : List Char) (c : Char) :
    decVal (ds ++ [c]) = decVal ds * 10 + (c.toNat - 48) := by
  simp [decVal, List.foldl_append]

/-- The digits written by `digitsAux`: a non-empty run of digits in front of the accumulator,
whose value is `n` and which starts with `0` only when it is the single digit `0`. -/
theorem digitsAux_spec : ∀ (fuel n : Nat) (acc : List Char), n < fuel →
    ∃ d ds, digitsAux fuel n acc = (d :: ds) ++ acc ∧ (d :: ds).all isDigit = true ∧
      decVal (d :: ds) = n ∧ (d = '0' → ds = []) := by
  intro fuel
  induction fuel with
  | zero => intro n acc h; omega
  | succ f ih =>
    intro n acc h
    have hlt : n % 10 < 10 := Nat.mod_lt _ (by decide)
    by_cases h0 : n / 10 = 0
    · refine ⟨digitChar (n % 10), [], ?_, ?_, ?_, ?_⟩
      · simp [digitsAux, h0]
      · simp [isDigit_digitChar _ hlt]
      · have h5 : n % 10 = n := by omega
        have h6 := digitChar_toNat _ hlt
        simp only [decVal, List.foldl_cons, List.foldl_nil, h6]
        omega
      · intro _; rfl
    · obtain ⟨d, ds, h1, h2, h3, h4⟩ := ih (n / 10) (digitChar (n % 10) :: acc) (by omega)
      refine ⟨d, ds ++ [digitChar (n % 10)], ?_, ?_, ?_, ?_⟩
      · simp [digitsAux, h0, h1]
      · simp only [List.all_cons, List.all_append, Bool.and_eq_true] at h2 ⊢
        simp [h2.1, h2.2, isDigit_digitChar _ hlt]
      · have : decVal ((d :: ds) ++ [digitChar (n % 10)]) = n := by
          rw [decVal_append_singleton, h3, digitChar_toNat _ hlt]; omega
        simpa using this
      · intro hd
        have := h4 hd
        subst this
        subst hd
        simp [decVal] at h3
        omega

theorem natDigits_spec (n : Nat) :
    ∃ d ds, natDigits n = d :: ds ∧ (d :: ds).all isDigit = true ∧
      decVal (d :: ds) = n ∧ (d = '0' → ds = []) := by
  obtain ⟨d, ds, h1, h2, h3, h4⟩ := digitsAux_spec (n + 1) n [] (by omega)
  exact ⟨d, ds, by simpa [natDigits] using h1, h2, h3, h4⟩

theorem takeDigits_append (ds : List Char) (c : Char) (rest : List Char)
    (h : ds.all isDigit = true) (hc : isDigit c = false) :
    takeDigits (ds ++ c :: rest) = (ds, c :: rest) := by
  induction ds with
  | nil => simp [takeDigits, hc]
  | cons d ds ih =>
    simp only [List.all_cons, Bool.and_eq_true] at h
    simp [takeDigits, h.1, ih h.2]

theorem isDigit_ne (d : Char) (h : isDigit d = true) :
    d ≠ '{' ∧ d ≠ '[' ∧ d ≠ '"' ∧ d ≠ 't' ∧ d ≠ 'f' ∧ d ≠ 'n' ∧ d ≠ '-' ∧ d ≠ '+' := by
  refine ⟨?_, ?_, ?_, ?_, ?_, ?_, ?_, ?_⟩ <;> (rintro rfl; revert h; decide)

theorem scanUnsigned_natDigits (n : Nat) (c : Char) (rest : List Char)
    (hc : c = ',' ∨ c = '}') :
    scanUnsigned (natDigits n ++ c :: rest) = some (natDigits n, c :: rest) := by
  obtain ⟨d, ds, h1, h2, _, h4⟩ := natDigits_spec n
  have hcd : isDigit c = false := by rcases hc with rfl | rfl <;> decide
  have hdot : c ≠ '.' := by rcases hc with rfl | rfl <;> decide
  have he : ¬ (c = 'e' ∨ c = 'E') := by rcases hc with rfl | rfl <;> decide
  have hfrac : scanFrac (c :: rest) = some ([], c :: rest) := by simp [scanFrac, hdot]
  have hexp : scanExp (c :: rest) = some ([], c :: rest) := by simp [scanExp, he]
  rw [h1]
  simp only [List.all_cons, Bool.and_eq_true] at h2
  by_cases hd : d = '0'
  · have := h4 hd
    subst this
    subst hd
    simp [scanUnsigned, scanInt, hfrac, hexp]
  · simp [scanUnsigned, scanInt, hd, h2.1, takeDigits_append ds c rest h2.2 hcd, hfrac, hexp]

theorem scanNumber_formatInt (n : Int) (c : Char) (rest : List Char)
    (hc : c = ',' ∨ c = '}') :
    scanNumber (formatInt n ++ c :: rest) = some (formatInt n, c :: rest) := by
  unfold formatInt
  split
  · simp [scanNumber, scanUnsigned_natDigits _ c rest hc]
  · obtain ⟨d, ds, h1, h2, _, _⟩ := natDigits_spec n.natAbs
    have h := scanUnsigned_natDigits n.natAbs c rest hc
    rw [h1] at h ⊢
    simp only [List.all_cons, Bool.and_eq_true] at h2
    have hne := (isDigit_ne d h2.1).2.2.2.2.2.2.1
    simpa [scanNumber, hne] using h

/-- A number written by `formatInt` and followed by a comma or a closing brace is read back as
that literal. -/
theorem parseValue_formatInt (f depth : Nat) (n : Int) (c : Char) (rest : List Char)
    (hc : c = ',' ∨ c = '}') :
    parseValue (f + 1) depth (formatInt n ++ c :: rest) =
      some (JSON.num (formatInt n), c :: rest) := by
  have h := scanNumber_formatInt n c rest hc
  have hshape : ∃ d ds, formatInt n = d :: ds ∧ (d = '-' ∨ isDigit d = true) := by
    unfold formatInt
    split
    · exact ⟨_, _, rfl, Or.inl rfl⟩
    · obtain ⟨d, ds, h1, h2, _, _⟩ := natDigits_spec n.natAbs
      simp only [List.all_cons, Bool.and_eq_true] at h2
      exact ⟨d, ds, h1, Or.inr h2.1⟩
  obtain ⟨d, ds, h1, h2⟩ := hshape
  rw [h1] at h ⊢
  have hne : d ≠ '{' ∧ d ≠ '[' ∧ d ≠ '"' ∧ d ≠ 't' ∧ d ≠ 'f' ∧ d ≠ 'n' := by
    rcases h2 with rfl | h2
    · decide
    · have := isDigit_ne d h2
      exact ⟨this.1, this.2.1, this.2.2.1, this.2.2.2.1, this.2.2.2.2.1, this.2.2.2.2.2.1⟩
  obtain ⟨a1, a2, a3, a4, a5, a6⟩ := hne
  simp only [List.cons_append] at h ⊢
  simp [parseValue, a1, a2, a3, a4, a5, a6, h]

/-- The function `strconv.ParseInt` reads back what `formatInt` writes, for a value in the
range of `int64`. -/
theorem parseInt_formatInt (n : Int) (hlo : -(2 : Int) ^ 63 ≤ n) (hhi : n < (2 : Int) ^ 63) :
    parseInt (formatInt n) = some n := by
  obtain ⟨d, ds, h1, h2, h3, _⟩ := natDigits_spec n.natAbs
  have h2' := h2
  simp only [List.all_cons, Bool.and_eq_true] at h2'
  unfold formatInt
  split
  · rename_i hneg
    have hv : decVal (natDigits n.natAbs) ≤ 2 ^ 63 := by rw [h1, h3]; omega
    have hne : (natDigits n.natAbs).isEmpty = false := by rw [h1]; rfl
    have hall : (natDigits n.natAbs).all isDigit = true := by rw [h1]; exact h2
    simp only [parseInt, if_true, hne, hall, hv]
    rw [h1, h3]
    have habs : -(n.natAbs : Int) = n := by omega
    rw [habs]
    simp
  · rename_i hpos
    have hne := (isDigit_ne d h2'.1).2.2.2.2.2.2
    have hv : decVal (d :: ds) < 2 ^ 63 := by rw [h3]; omega
    rw [h1]
    simp only [parseInt, hne.1, hne.2, if_false, h2, hv]
    rw [h3]
    have habs : (n.natAbs : Int) = n := by omega
    rw [habs]
    simp

theorem getu4_hexDigit : ∀ k, k < 128 →
    getu4 '0' '0' (hexDigit (k / 16)) (hexDigit (k % 16)) = some k := by decide

theorem char_eq_of_toNat (c : Char) (k : Nat) (h : c.toNat = k) : c = Char.ofNat k := by
  rw [← h, Char.ofNat_toNat]

theorem unquoteAux_escapeByte (c : Char) (f : Nat) (tail : List Char) (hk : c.toNat < 128) :
    unquoteAux (f + 1) (escapeByte c ++ tail) =
      (unquoteAux f tail).map (fun p => (c :: p.1, p.2)) := by
  unfold escapeByte
  split_ifs with h1 h3 h4 h5 h6 h7
  · rcases h1 with h | h
    · have := char_eq_of_toNat c 92 h; subst this; simp [unquoteAux, unescape]
    · have := char_eq_of_toNat c 34 h; subst this; simp [unquoteAux, unescape]
  · have := char_eq_of_toNat c 8 h3; subst this; simp [unquoteAux, unescape]
  · have := char_eq_of_toNat c 12 h4; subst this; simp [unquoteAux, unescape]
  · have := char_eq_of_toNat c 10 h5; subst this; simp [unquoteAux, unescape]
  · have := char_eq_of_toNat c 13 h6; subst this; simp [unquoteAux, unescape]
  · have := char_eq_of_toNat c 9 h7; subst this; simp [unquoteAux, unescape]
  · have hg := getu4_hexDigit c.toNat hk
    have hs : ¬ (55296 ≤ c.toNat ∧ c.toNat < 57344) := by omega
    simp [unquoteAux, hg, hs, Char.ofNat_toNat]


theorem unquoteAux_copy (c : Char) (f : Nat) (tail : List Char)
    (h1 : c.toNat ≠ 34) (h2 : c.toNat ≠ 92) (h3 : 32 ≤ c.toNat) :
    unquoteAux (f + 1) (c :: tail) = (unquoteAux f tail).map (fun p => (c :: p.1, p.2)) := by
  have a1 : c ≠ '"' := by rintro rfl; exact h1 rfl
  have a2 : c ≠ '\\' := by rintro rfl; exact h2 rfl
  have a3 : ¬ c.toNat < 32 := by omega
  simp [unquoteAux, a1, a2, a3]

/-- Reading back the escape of one character gives the character. -/
theorem unquoteAux_escapeChar (c : Char) (f : Nat) (tail : List Char) :
    unquoteAux (f + 1) (escapeChar c ++ tail) =
      (unquoteAux f tail).map (fun p => (c :: p.1, p.2)) := by
  unfold escapeChar
  split_ifs with h1 h2 h3
  · simp only [htmlSafe, Bool.and_eq_true, decide_eq_true_eq, Bool.not_eq_true',
      Bool.or_eq_false_iff, decide_eq_false_iff_not] at h2
    exact unquoteAux_copy c f tail h2.2.1.1.1.1 h2.2.1.1.1.2 h2.1
  · exact unquoteAux_escapeByte c f tail h1
  · rcases h3 with h | h
    · have := char_eq_of_toNat c 8232 h; subst this; simp [unquoteAux, getu4, hexVal, hexDigit]
    · have := char_eq_of_toNat c 8233 h; subst this; simp [unquoteAux, getu4, hexVal, hexDigit]
  · exact unquoteAux_copy c f tail (by omega) (by omega) (by omega)

theorem escapeChar_length_pos (c : Char) : 0 < (escapeChar c).length := by
  unfold escapeChar escapeByte
  split_ifs <;> exact Nat.succ_pos _

theorem unquoteAux_escapeString (s : List Char) : ∀ (fuel : Nat) (rest : List Char),
    (escapeString s).length < fuel →
    unquoteAux fuel (escapeString s ++ '"' :: rest) = some (s, rest) := by
  induction s with
  | nil =>
    intro fuel rest h
    cases fuel with
    | zero => omega
    | succ f => simp [escapeString, unquoteAux]
  | cons c cs ih =>
    intro fuel rest h
    cases fuel with
    | zero => omega
    | succ f =>
      have hpos := escapeChar_length_pos c
      simp only [escapeString, List.length_append] at h
      simp only [escapeString, List.append_assoc]
      rw [unquoteAux_escapeChar, ih f rest (by omega)]
      rfl

/-- Reading back an escaped string up to its closing quote gives the string and the text after
the quote. -/
theorem unquote_escapeString (s rest : List Char) :
    unquote (escapeString s ++ '"' :: rest) = some (s, rest) := by
  unfold unquote
  apply unquoteAux_escapeString
  simp only [List.length_append, List.length_cons]
  omega

/-- A string literal is read back as its string. -/
theorem parseValue_quote (f depth : Nat) (s rest : List Char) :
    parseValue (f + 1) depth (quote s ++ rest) = some (JSON.str s, rest) := by
  simp [quote, parseValue, unquote_escapeString]

theorem skipSpace_quote (s rest : List Char) : skipSpace (quote s ++ rest) = quote s ++ rest := by
  simp [quote, skipSpace, isSpace]

theorem skipSpace_formatInt (n : Int) (rest : List Char) :
    skipSpace (formatInt n ++ rest) = formatInt n ++ rest := by
  have hshape : ∃ d ds, formatInt n = d :: ds ∧ (d = '-' ∨ isDigit d = true) := by
    unfold formatInt
    split
    · exact ⟨_, _, rfl, Or.inl rfl⟩
    · obtain ⟨d, ds, h1, h2, _, _⟩ := natDigits_spec n.natAbs
      simp only [List.all_cons, Bool.and_eq_true] at h2
      exact ⟨d, ds, h1, Or.inr h2.1⟩
  obtain ⟨d, ds, h1, h2⟩ := hshape
  have hsp : isSpace d = false := by
    rcases h2 with rfl | h2
    · decide
    · simp only [isDigit, Bool.and_eq_true, decide_eq_true_eq] at h2
      simp only [isSpace, Bool.or_eq_false_iff, decide_eq_false_iff_not]
      omega
  rw [h1]
  simp [skipSpace, hsp]

/-- The last member of an object. -/
theorem parseMembers_last (f depth : Nat) (k X rest : List Char) (v : JSON)
    (hX : skipSpace X = X) (hv : parseValue (f + 1) depth X = some (v, '}' :: rest)) :
    parseMembers (f + 2) depth (quote k ++ ':' :: X) = some ([(k, v)], rest) := by
  simp [quote, parseMembers, unquote_escapeString, skipSpace, isSpace, hX, hv]

/-- A member of an object that is followed by a comma and more members. -/
theorem parseMembers_more (f depth : Nat) (k X Y : List Char) (v : JSON)
    (hX : skipSpace X = X) (hv : parseValue (f + 1) depth X = some (v, ',' :: Y)) :
    parseMembers (f + 2) depth (quote k ++ ':' :: X) =
      (parseMembers (f + 1) depth (skipSpace Y)).map (fun p => ((k, v) :: p.1, p.2)) := by
  simp [quote, parseMembers, unquote_escapeString, skipSpace, isSpace, hX, hv]

/-- An object that starts with a key. -/
theorem parseValue_object (f depth : Nat) (k Z : List Char) (h : depth < maxNestingDepth) :
    parseValue (f + 1) depth ('{' :: (quote k ++ Z)) =
      (parseMembers f (depth + 1) (quote k ++ Z)).map (fun p => (JSON.obj p.1, p.2)) := by
  have h1 : ¬ maxNestingDepth ≤ depth := by omega
  simp [quote, parseValue, skipSpace, isSpace, h1]

/-- The JSON text of an order is read back as an object of its two fields. -/
theorem parseValue_marshalOrder (f : Nat) (o : Order) (tail : List Char) :
    parseValue (f + 4) 0 (marshalOrder o ++ tail) =
      some (JSON.obj [("orderId".data, JSON.str o.orderId.data),
        ("amount".data, JSON.num (formatInt o.amount))], tail) := by
  have hnum := parseValue_formatInt f 1 o.amount '}' tail (Or.inr rfl)
  have hlast := parseMembers_last f 1 "amount".data (formatInt o.amount ++ '}' :: tail) tail
    (JSON.num (formatInt o.amount)) (skipSpace_formatInt _ _) hnum
  have hstr := parseValue_quote (f + 1) 1 o.orderId.data
    (',' :: (quote "amount".data ++ ':' :: (formatInt o.amount ++ '}' :: tail)))
  have hmore := parseMembers_more (f + 1) 1 "orderId".data _ _ _ (skipSpace_quote _ _) hstr
  rw [skipSpace_quote, hlast] at hmore
  have hobj := parseValue_object (f + 3) 0 "orderId".data
    (':' :: (quote o.orderId.data ++ ',' :: (quote "amount".data ++ ':' ::
      (formatInt o.amount ++ '}' :: tail)))) (by decide)
  rw [Nat.zero_add, hmore] at hobj
  simpa [marshalOrder] using hobj

theorem marshalOrder_length (o : Order) : 3 ≤ (marshalOrder o).length := by
  simp [marshalOrder, quote]
  omega

theorem skipSpace_marshalOrder (o : Order) (tail : List Char) :
    skipSpace (marshalOrder o ++ tail) = marshalOrder o ++ tail := by
  simp [marshalOrder, skipSpace, isSpace]

theorem parseJSON_marshalOrder (o : Order) (tail : List Char) :
    parseJSON (marshalOrder o ++ tail) =
      some (JSON.obj [("orderId".data, JSON.str o.orderId.data),
        ("amount".data, JSON.num (formatInt o.amount))], tail) := by
  have hlen := marshalOrder_length o
  obtain ⟨f, hf⟩ : ∃ f, (marshalOrder o ++ tail).length + 1 = f + 4 :=
    ⟨(marshalOrder o ++ tail).length - 3, by simp only [List.length_append]; omega⟩
  rw [parseJSON, skipSpace_marshalOrder, hf, parseValue_marshalOrder]

theorem storeOrder_fields (s : List Char) (n : Int)
    (hlo : -(2 : Int) ^ 63 ≤ n) (hhi : n < (2 : Int) ^ 63) :
    storeOrder ⟨"", 0⟩ (JSON.obj [("orderId".data, JSON.str s),
        ("amount".data, JSON.num (formatInt n))]) = .ok ⟨String.mk s, n⟩ := by
  have h1 : foldKey "orderId".data = "orderid".data := by decide
  have h2 : foldKey "amount".data ≠ "orderid".data := by decide
  have h3 : foldKey "amount".data = "amount".data := by decide
  simp [storeOrder, storeMember, h1, h2, h3, parseInt_formatInt n hlo hhi]

/-- The function `json.Unmarshal` reads back what `json.Marshal` wrote for an order, also
when white space follows it. -/
theorem unmarshalOrder_marshalOrder (o : Order) (tail : List Char)
    (htail : skipSpace tail = [])
    (hlo : -(2 : Int) ^ 63 ≤ o.amount) (hhi : o.amount < (2 : Int) ^ 63) :
    unmarshalOrder (marshalOrder o ++ tail) = .ok o := by
  simp [unmarshalOrder, parseJSON_marshalOrder, htail, storeOrder_fields _ _ hlo hhi]

/-- The stream decoder reads back what `json.Marshal` wrote for an order. -/
theorem decodeOrder_marshalOrder (o : Order) (tail : List Char)
    (hlo : -(2 : Int) ^ 63 ≤ o.amount) (hhi : o.amount < (2 : Int) ^ 63) :
    decodeOrder (marshalOrder o ++ tail) = .ok o := by
  simp [decodeOrder, parseJSON_marshalOrder, storeOrder_fields _ _ hlo hhi]

theorem bitLenAux_le (fuel : Nat) : ∀ (n k : Nat), n < 2 ^ k → bitLenAux fuel n ≤ k := by
  induction fuel with
  | zero => intro n k _; simp [bitLenAux]
  | succ f ih =>
    intro n k h
    unfold bitLenAux
    split_ifs with h0
    · omega
    · cases k with
      | zero => simp at h; omega
      | succ k =>
        have : n / 2 < 2 ^ k := by
          rw [Nat.pow_succ] at h
          omega
        have := ih (n / 2) k this
        omega

theorem bitLen_le (n k : Nat) (h : n < 2 ^ k) : bitLen n ≤ k := bitLenAux_le n n k h

/-- A natural number below `2 ^ 53` is a `float64`. -/
theorem roundFloat64_exact (n : Nat) (h : n < 2 ^ 53) : roundFloat64 n = n := by
  have hl : bitLen n - 53 = 0 := by
    have := bitLen_le n 53 h
    omega
  simp [roundFloat64, hl, Nat.mod_one]

theorem readsBackAs_exact (v x : Nat) (h : v < 2 ^ 53) (hr : readsBackAs v x = true) :
    x = v := by
  have hl : bitLen v ≤ 53 := bitLen_le v 53 h
  have hp : 2 ^ bitLen v ≤ 2 ^ 53 := Nat.pow_le_pow_right (by decide) hl
  simp only [readsBackAs] at hr
  generalize 2 ^ bitLen v = half at hr hp
  generalize v * 2 ^ (53 - bitLen v) / 2 ^ (bitLen v - 53) % 2 = par at hr
  generalize (2 : Nat) ^ (bitLen v - 1) = pw at hr
  have e54 : (2 : Nat) ^ 54 = 18014398509481984 := by norm_num
  have e53 : (2 : Nat) ^ 53 = 9007199254740992 := by norm_num
  rw [e54] at hr
  rw [e53] at hp h
  split_ifs at hr <;> simp only [Bool.and_eq_true, decide_eq_true_eq] at hr <;> omega

theorem shortestAt_exact (v p c : Nat) (h : v < 2 ^ 53) (hc : shortestAt v p = some c) :
    c = v := by
  simp only [shortestAt] at hc
  generalize v / 10 ^ p * 10 ^ p = down at hc
  generalize down + 10 ^ p = up at hc
  generalize 10 ^ p = m at hc
  have key : ∀ x, readsBackAs v x = true → x = v := fun x hx => readsBackAs_exact v x h hx
  by_cases hd : readsBackAs v down = true
  · by_cases hu : readsBackAs v up = true
    · have e1 := key down hd
      have e2 := key up hu
      simp only [hd, hu, Bool.and_self, if_true] at hc
      split_ifs at hc <;> simp only [Option.some.injEq] at hc <;> omega
    · simp only [hd, hu, Bool.and_false, if_true] at hc
      simp only [Bool.false_eq_true, if_false, Option.some.injEq] at hc
      rw [← hc]
      exact key down hd
  · by_cases hu : readsBackAs v up = true
    · simp only [hd, hu, Bool.false_and, Bool.false_eq_true, if_false, if_true,
        Option.some.injEq] at hc
      rw [← hc]
      exact key up hu
    · simp [hd, hu] at hc

theorem shortestFrom_exact (v : Nat) (h : v < 2 ^ 53) : ∀ p, shortestFrom v p = v := by
  intro p
  induction p with
  | zero => rfl
  | succ p ih =>
    unfold shortestFrom
    cases hc : shortestAt v (p + 1) with
    | none => simpa using ih
    | some c => simpa using shortestAt_exact v (p + 1) c h hc

/-- An integer of absolute value at most `2 ^ 53` is decoded into a `float64` and written back
by `json.Marshal` with the digits of `strconv.FormatInt`. -/
theorem formatFloat64_float64OfInt (n : Int)
    (hlo : -(2 : Int) ^ 53 ≤ n) (hhi : n ≤ (2 : Int) ^ 53) :
    formatFloat64 (float64OfInt n) = formatInt n := by
  by_cases hb : n.natAbs < 2 ^ 53
  · have hr := roundFloat64_exact n.natAbs hb
    have hf : float64OfInt n = n := by
      unfold float64OfInt
      rw [hr]
      split_ifs <;> omega
    rw [hf]
    by_cases h0 : n = 0
    · subst h0; decide
    · have hs : shortestDecimal n.natAbs = n.natAbs := shortestFrom_exact _ hb _
      have h21 : n.natAbs < 10 ^ 21 := by
        have : (2 : Nat) ^ 53 < 10 ^ 21 := by norm_num
        omega
      unfold formatFloat64 formatInt
      rw [if_neg h0, if_pos h21, hs]
  · have : n = 9007199254740992 ∨ n = -9007199254740992 := by
      norm_num at hb hlo hhi
      omega
    rcases this with rfl | rfl <;> decide

theorem marshalDyn_decodedMapping (o : Order) :
    marshalDyn (decodedMapping o) =
      .ok ('{' :: (quote "amount".data ++ ':' :: (formatFloat64 (float64OfInt o.amount) ++
        ',' :: (quote "orderId".data ++ ':' :: (quote o.orderId.data ++ ['}']))))) := by
  have h : keyLess "orderId".data "amount".data = false := by decide
  simp [decodedMapping, marshalDyn, marshalFields, sortByKey, insertByKey, joinElements,
    encodeMember, h]

theorem parseJSON_mapping (o : Order) :
    parseJSON ('{' :: (quote "amount".data ++ ':' :: (formatInt o.amount ++
        ',' :: (quote "orderId".data ++ ':' :: (quote o.orderId.data ++ ['}']))))) =
      some (JSON.obj [("amount".data, JSON.num (formatInt o.amount)),
        ("orderId".data, JSON.str o.orderId.data)], []) := by
  have key : ∀ f, parseValue (f + 4) 0 ('{' :: (quote "amount".data ++ ':' ::
      (formatInt o.amount ++ ',' :: (quote "orderId".data ++ ':' ::
        (quote o.orderId.data ++ ['}']))))) =
      some (JSON.obj [("amount".data, JSON.num (formatInt o.amount)),
        ("orderId".data, JSON.str o.orderId.data)], []) := by
    intro f
    have hstr := parseValue_quote f 1 o.orderId.data ['}']
    have hlast := parseMembers_last f 1 "orderId".data (quote o.orderId.data ++ ['}']) []
      (JSON.str o.orderId.data) (skipSpace_quote _ _) hstr
    have hnum := parseValue_formatInt (f + 1) 1 o.amount ','
      (quote "orderId".data ++ ':' :: (quote o.orderId.data ++ ['}'])) (Or.inl rfl)
    have hmore := parseMembers_more (f + 1) 1 "amount".data _ _ _ (skipSpace_formatInt _ _) hnum
    rw [skipSpace_quote, hlast] at hmore
    have hobj := parseValue_object (f + 3) 0 "amount".data
      (':' :: (formatInt o.amount ++ ',' :: (quote "orderId".data ++ ':' ::
        (quote o.orderId.data ++ ['}'])))) (by decide)
    rw [Nat.zero_add, hmore] at hobj
    simpa using hobj
  have hsp : ∀ t, skipSpace ('{' :: t) = '{' :: t := by intro t; simp [skipSpace, isSpace]
  rw [parseJSON, hsp]
  exact key _

theorem storeOrder_fields_swapped (s : List Char) (n : Int)
    (hlo : -(2 : Int) ^ 63 ≤ n) (hhi : n < (2 : Int) ^ 63) :
    storeOrder ⟨"", 0⟩ (JSON.obj [("amount".data, JSON.num (formatInt n)),
        ("orderId".data, JSON.str s)]) = .ok ⟨String.mk s, n⟩ := by
  have h1 : foldKey "orderId".data = "orderid".data := by decide
  have h2 : foldKey "amount".data ≠ "orderid".data := by decide
  have h3 : foldKey "amount".data = "amount".data := by decide
  simp [storeOrder, storeMember, h1, h2, h3, parseInt_formatInt n hlo hhi]

theorem unmarshalOrder_mapping (o : Order)
    (hlo : -(2 : Int) ^ 63 ≤ o.amount) (hhi : o.amount < (2 : Int) ^ 63) :
    unmarshalOrder ('{' :: (quote "amount".data ++ ':' :: (formatInt o.amount ++
        ',' :: (quote "orderId".data ++ ':' :: (quote o.orderId.data ++ ['}']))))) = .ok o := by
  rw [unmarshalOrder, parseJSON_mapping]
  simp [skipSpace, storeOrder_fields_swapped _ _ hlo hhi]

/-- The decoded mapping of an order whose amount a `float64` holds exactly marshals to a text
that unmarshals to the order. -/
theorem normalise_decodedMapping (o : Order)
    (hlo : -(2 : Int) ^ 53 ≤ o.amount) (hhi : o.amount ≤ (2 : Int) ^ 53) :
    normalise (decodedMapping o) = some o := by
  have h := marshalDyn_decodedMapping o
  rw [formatFloat64_float64OfInt o.amount hlo hhi] at h
  have h63 : (2 : Int) ^ 53 < 2 ^ 63 := by norm_num
  have hu := unmarshalOrder_mapping o (by omega) (by omega)
  rw [decodedMapping] at h ⊢
  rw [normalise, h]
  simp only [hu, Except.toOption]

theorem normalise_bytes_marshalOrder (o : Order)
    (hlo : -(2 : Int) ^ 63 ≤ o.amount) (hhi : o.amount < (2 : Int) ^ 63) :
    normalise (.bytes (marshalOrder o)) = some o := by
  have h := unmarshalOrder_marshalOrder o [] rfl hlo hhi
  simp only [List.append_nil] at h
  simp [normalise, h, Except.toOption]

/-- An event whose data normalises to an order is handled as that order. -/
theorem ordersHandler_of_normalise (now : String) (e : TopicEvent) (o : Order)
    (h : normalise e.data = some o) : ordersHandler now e = processOrder now o := by
  obtain ⟨d⟩ := e
  cases d with
  | bytes data =>
    simp only [normalise] at h
    cases hu : unmarshalOrder data with
    | error err => simp [hu, Except.toOption] at h
    | ok order =>
      simp only [hu, Except.toOption, Option.some.injEq] at h
      subst h
      simp [ordersHandler, hu]
  | map kvs =>
    simp only [normalise] at h
    cases hm : marshalDyn (.map kvs) with
    | error err => simp [hm] at h
    | ok dataBytes =>
      simp only [hm] at h
      cases hu : unmarshalOrder dataBytes with
      | error err => simp [hu, Except.toOption] at h
      | ok order =>
        simp only [hu, Except.toOption, Option.some.injEq] at h
        subst h
        simp [ordersHandler, hm, hu]
  | _ => simp [normalise] at h

/-! ## Lemmas on the handlers -/

theorem processOrder_valid (now : String) (o : Order) (h1 : o.orderId ≠ "") (h2 : 0 < o.amount) :
    processOrder now o = { retry := false, err := none, log := processedLog now o } := by
  have h3 : ¬ o.amount ≤ 0 := by omega
  simp [processOrder, processedLog, h1, h3]

theorem processOrder_invalid (now : String) (o : Order) (h : o.orderId = "" ∨ o.amount ≤ 0) :
    processOrder now o = { retry := false, err := none, log := [dropLine o] } := by
  by_cases h1 : o.orderId = ""
  · simp [processOrder, dropLine, h1]
  · have h2 : o.amount ≤ 0 := by
      rcases h with h | h
      · exact absurd h h1
      · exact h
    simp [processOrder, dropLine, h1, h2]

theorem processOrder_retry (now : String) (o : Order) : (processOrder now o).retry = false := by
  unfold processOrder
  split_ifs <;> rfl

theorem lineStart_processOrder (now : String) (o : Order) (line : String)
    (h : line ∈ (processOrder now o).log) :
    lineStart line = "error: r".data ∨ lineStart line = "Inventor".data ∨
      lineStart line = "[INVENTO".data := by
  unfold processOrder at h
  split_ifs at h <;> simp at h
  · subst h; left; rfl
  · subst h; left; simp [lineStart]
  · rcases h with h | h | h <;> subst h
    · right; left; simp [lineStart]
    · right; right; simp [lineStart]
    · right; right; simp [lineStart]

theorem dropLine_not_processed (now : String) (o : Order) : dropLine o ∉ processedLog now o := by
  intro h
  have hs : lineStart (dropLine o) = "error: r".data := by
    unfold dropLine
    split_ifs
    · rfl
    · simp [lineStart]
  simp only [processedLog, List.mem_cons, List.mem_singleton, List.not_mem_nil, or_false] at h
  rcases h with h | h | h <;> rw [h] at hs <;> simp [lineStart] at hs

theorem ordersHandler_of_not_normalise (now : String) (e : TopicEvent)
    (h : normalise e.data = none) :
    (∃ err what, ordersHandler now e =
        { retry := false, err := some err, log := ["error " ++ what ++ err.msg] } ∧
        (what = "unmarshaling order from bytes: " ∨ what = "marshaling map data: " ∨
          what = "unmarshaling order from map: ") ∧
        ((∃ b, e.data = .bytes b) ∨ (∃ m, e.data = .map m))) ∨
    (ordersHandler now e =
        { retry := false, err := none, log := ["error: unexpected data type " ++ e.data.typeName] } ∧
      (∀ b, e.data ≠ .bytes b) ∧ (∀ m, e.data ≠ .map m)) := by
  obtain ⟨d⟩ := e
  cases d with
  | bytes data =>
    left
    simp only [normalise] at h
    cases hu : unmarshalOrder data with
    | ok order => simp [hu, Except.toOption] at h
    | error err =>
      refine ⟨err, "unmarshaling order from bytes: ", ?_, Or.inl rfl, Or.inl ⟨data, rfl⟩⟩
      simp [ordersHandler, hu, String.append_assoc]
  | map kvs =>
    left
    simp only [normalise] at h
    cases hm : marshalDyn (.map kvs) with
    | error err =>
      refine ⟨err, "marshaling map data: ", ?_, Or.inr (Or.inl rfl), Or.inr ⟨kvs, rfl⟩⟩
      simp [ordersHandler, hm, String.append_assoc]
    | ok dataBytes =>
      simp only [hm] at h
      cases hu : unmarshalOrder dataBytes with
      | ok order => simp [hu, Except.toOption] at h
      | error err =>
        refine ⟨err, "unmarshaling order from map: ", ?_, Or.inr (Or.inr rfl), Or.inr ⟨kvs, rfl⟩⟩
        simp [ordersHandler, hm, hu, String.append_assoc]
  | _ => right; simp [ordersHandler, Dyn.typeName]

theorem ordersHandler_never_retries_aux (now : String) (e : TopicEvent) :
    (ordersHandler now e).retry = false := by
  cases hn : normalise e.data with
  | some o => rw [ordersHandler_of_normalise now e o hn, processOrder_retry]
  | none =>
    rcases ordersHandler_of_not_normalise now e hn with ⟨err, what, h, _, _⟩ | ⟨h, _, _⟩ <;>
      rw [h]

theorem issued_append (c : Client) (run : Run) (calls : List Call)
    (h : run.client.trace = c.trace ++ calls) : issued c run = calls := by
  simp [issued, h]

/-- The run of `createOrderHandler` on a request that is not a POST. -/
theorem createOrderHandler_not_post (c : Client) (r : Request) (hm : r.method ≠ "POST") :
    createOrderHandler c r =
      { response := httpError "method not allowed" 405, client := c, log := [] } := by
  simp [createOrderHandler, hm]

/-- The run of `createOrderHandler` on a body that does not decode. -/
theorem createOrderHandler_undecodable (c : Client) (r : Request) (err : JsonError)
    (hm : r.method = "POST") (hd : decodeOrder r.body = .error err) :
    createOrderHandler c r =
      { response := httpError "invalid payload" 400, client := c,
        log := ["Failed to decode order: " ++ err.msg] } := by
  simp [createOrderHandler, hm, hd]

/-- The run of `createOrderHandler` on an order that fails validation. -/
theorem createOrderHandler_invalid (c : Client) (r : Request) (o : Order)
    (hm : r.method = "POST") (hd : decodeOrder r.body = .ok o)
    (hinv : o.orderId = "" ∨ o.amount ≤ 0) :
    (createOrderHandler c r).response.status = 400 ∧ (createOrderHandler c r).client = c := by
  by_cases h1 : o.orderId = ""
  · simp [createOrderHandler, hm, hd, h1, httpError]
  · have h2 : o.amount ≤ 0 := by
      rcases hinv with h | h
      · exact absurd h h1
      · exact h
    simp [createOrderHandler, hm, hd, h1, h2, httpError]

/-- The run of `createOrderHandler` on a valid order whose save fails. -/
theorem createOrderHandler_save_fails (c : Client) (r : Request) (o : Order) (err : String)
    (hm : r.method = "POST") (hd : decodeOrder r.body = .ok o)
    (h1 : o.orderId ≠ "") (h2 : 0 < o.amount) (hs : c.faults.saveState = some err) :
    createOrderHandler c r =
      { response := httpError "failed to save order" 500
        client := { c with trace := c.trace ++ [saveCall o] }
        log := ["saveOrder error: " ++ err] } := by
  have h3 : ¬ o.amount ≤ 0 := by omega
  simp [createOrderHandler, hm, hd, h1, h3, saveOrder, Client.saveState, hs, saveCall, logError]

/-- The run of `createOrderHandler` on a valid order whose save succeeds. -/
theorem createOrderHandler_saved (c : Client) (r : Request) (o : Order)
    (hm : r.method = "POST") (hd : decodeOrder r.body = .ok o)
    (h1 : o.orderId ≠ "") (h2 : 0 < o.amount) (hs : c.faults.saveState = none) :
    (createOrderHandler c r).response = { status := 202, header := [], body := [] } ∧
      (createOrderHandler c r).client.faults = c.faults ∧
      (createOrderHandler c r).client.trace =
        c.trace ++ [saveCall o, publishCall o, receiptCall o] ∧
      (createOrderHandler c r).client.sidecar.state =
        (("statestore", o.orderId), marshalOrder o) :: c.sidecar.state ∧
      (c.faults.publishEvent = none → (createOrderHandler c r).client.sidecar.events =
        c.sidecar.events ++ [(("pubsub", "orders"), marshalOrder o)]) := by
  have h3 : ¬ o.amount ≤ 0 := by omega
  cases hp : c.faults.publishEvent <;> cases hb : c.faults.invokeBinding <;>
    simp [createOrderHandler, hm, hd, h1, h3, saveOrder, Client.saveState, hs, saveCall,
      publishOrder, Client.publishEvent, hp, storeReceipt, Client.invokeBinding, hb,
      publishCall, receiptCall]

theorem parseInt_range (s : List Char) (n : Int) (h : parseInt s = some n) :
    -(2 : Int) ^ 63 ≤ n ∧ n < (2 : Int) ^ 63 := by
  revert h
  unfold parseInt
  generalize (match s with
    | c :: r => if c = '-' then (true, r) else if c = '+' then (false, r) else (false, s)
    | [] => (false, s)) = p
  obtain ⟨neg, ds⟩ := p
  simp only
  split_ifs with h1 h2 h3 h4
  · intro h; cases h
  · intro h
    simp only [Option.some.injEq] at h
    subst h
    have : (decVal ds : Int) ≤ 2 ^ 63 := by exact_mod_cast h3
    constructor <;> omega
  · intro h; cases h
  · intro h
    simp only [Option.some.injEq] at h
    subst h
    have : (decVal ds : Int) < 2 ^ 63 := by exact_mod_cast h4
    constructor <;> omega
  · intro h; cases h

theorem storeMember_range (st : Order × Option JsonError) (kv : List Char × JSON)
    (h : -(2 : Int) ^ 63 ≤ st.1.amount ∧ st.1.amount < (2 : Int) ^ 63) :
    -(2 : Int) ^ 63 ≤ (storeMember st kv).1.amount ∧
      (storeMember st kv).1.amount < (2 : Int) ^ 63 := by
  unfold storeMember
  split_ifs
  · split <;> simpa using h
  · split
    · split
      · rename_i hn
        simpa using parseInt_range _ _ hn
      · simpa using h
    · simpa using h
    · simpa using h
  · exact h

theorem foldl_storeMember_range (kvs : List (List Char × JSON)) :
    ∀ st : Order × Option JsonError,
      (-(2 : Int) ^ 63 ≤ st.1.amount ∧ st.1.amount < (2 : Int) ^ 63) →
      -(2 : Int) ^ 63 ≤ (kvs.foldl storeMember st).1.amount ∧
        (kvs.foldl storeMember st).1.amount < (2 : Int) ^ 63 := by
  induction kvs with
  | nil => intro st h; simpa using h
  | cons kv kvs ih =>
    intro st h
    simp only [List.foldl_cons]
    exact ih _ (storeMember_range st kv h)

theorem storeOrder_range (v : JSON) (o : Order) (h : storeOrder ⟨"", 0⟩ v = .ok o) :
    -(2 : Int) ^ 63 ≤ o.amount ∧ o.amount < (2 : Int) ^ 63 := by
  unfold storeOrder at h
  split at h
  · simp only [Except.ok.injEq] at h
    subst h
    constructor <;> decide
  · rename_i kvs
    have hr := foldl_storeMember_range kvs (⟨"", 0⟩, none) (by constructor <;> decide)
    split at h
    · rename_i o1 heq
      simp only [Except.ok.injEq] at h
      subst h
      rw [heq] at hr
      exact hr
    · cases h
  · cases h

/-- The amount of an order decoded from a request body is in the range of a Go `int`. -/
theorem decodeOrder_range (body : Bytes) (o : Order) (h : decodeOrder body = .ok o) :
    -(2 : Int) ^ 63 ≤ o.amount ∧ o.amount < (2 : Int) ^ 63 := by
  unfold decodeOrder at h
  split at h
  · cases h
  · exact storeOrder_range _ o h

theorem ordersPath_drop (id : String) :
    String.mk (("/orders/" ++ id).data.drop 8) = id ∧ ¬ ("/orders/" ++ id).data.length < 8 := by
  have h : ("/orders/" ++ id).data = '/' :: 'o' :: 'r' :: 'd' :: 'e' :: 'r' :: 's' :: '/' :: id.data := by
    simp [String.data_append]
  rw [h]
  constructor
  · simp
  · simp

/-- The run of `getOrderHandler` for an identifier under which the store holds a value that
unmarshals. -/
theorem getOrderHandler_found (c : Client) (id : String) (body value : Bytes) (o : Order)
    (hid : id ≠ "") (hg : c.faults.getState = none)
    (hl : c.sidecar.state.lookup ("statestore", id) = some value)
    (hu : unmarshalOrder value = .ok o) :
    getOrderHandler c ⟨"GET", "/orders/" ++ id, body⟩ =
      some { response := { status := 200, header := [("Content-Type", "application/json")],
                           body := marshalOrder o ++ ['\n'] }
             client := { c with trace := c.trace ++ [Call.getState "statestore" id] }
             log := [] } := by
  obtain ⟨hp1, hp2⟩ := ordersPath_drop id
  simp only [getOrderHandler, hp1, hp2]
  simp [hid, getOrder, Client.getState, hg, hl, hu]

/-- The run of `getOrderHandler` for an identifier under which the store holds no value. -/
theorem getOrderHandler_absent (c : Client) (id : String) (body : Bytes)
    (hid : id ≠ "") (hg : c.faults.getState = none)
    (hl : c.sidecar.state.lookup ("statestore", id) = none) :
    getOrderHandler c ⟨"GET", "/orders/" ++ id, body⟩ =
      some { response := httpError "order not found" 404
             client := { c with trace := c.trace ++ [Call.getState "statestore" id] }
             log := [] } := by
  obtain ⟨hp1, hp2⟩ := ordersPath_drop id
  simp only [getOrderHandler, hp1, hp2]
  simp [hid, getOrder, Client.getState, hg, hl]

/-- The run of `getOrderHandler` for the empty identifier. -/
theorem getOrderHandler_empty (c : Client) (body : Bytes) :
    getOrderHandler c ⟨"GET", "/orders/", body⟩ =
      some { response := httpError "order ID is required" 400, client := c, log := [] } := by
  simp [getOrderHandler]

/-! ## The order service: properties -/

/-- C1. Round trip through the state store: when the save and the read of the state store
succeed, then for every order `o` with non-empty `orderId` and `amount > 0` (a Go `int`),
`createOrderHandler` on a POST whose body is the JSON encoding of `o` answers 202, and
`getOrderHandler` on `GET /orders/{orderId}` afterwards answers 200 with a body that unmarshals
to an order with the same `orderId` and the same `amount`. -/
theorem create_then_get_round_trip (c : Client) (o : Order) (body : Bytes)
    (hs : c.faults.saveState = none) (hg : c.faults.getState = none)
    (h1 : o.orderId ≠ "") (h2 : 0 < o.amount) (hhi : o.amount < (2 : Int) ^ 63) :
    (createOrderHandler c ⟨"POST", "/orders", marshalOrder o⟩).response.status = 202 ∧
      ∃ run, getOrderHandler (createOrderHandler c ⟨"POST", "/orders", marshalOrder o⟩).client
          ⟨"GET", "/orders/" ++ o.orderId, body⟩ = some run ∧
        run.response.status = 200 ∧
        ∃ o2, unmarshalOrder run.response.body = .ok o2 ∧
          o2.orderId = o.orderId ∧ o2.amount = o.amount := by
  have hlo : -(2 : Int) ^ 63 ≤ o.amount := by omega
  have hd : decodeOrder (marshalOrder o) = .ok o := by
    have := decodeOrder_marshalOrder o [] hlo hhi
    simpa using this
  have hu : unmarshalOrder (marshalOrder o) = .ok o := by
    have := unmarshalOrder_marshalOrder o [] rfl hlo hhi
    simpa using this
  obtain ⟨hresp, hfaults, _, hstate, _⟩ :=
    createOrderHandler_saved c ⟨"POST", "/orders", marshalOrder o⟩ o rfl hd h1 h2 hs
  refine ⟨by rw [hresp], _, getOrderHandler_found _ o.orderId body (marshalOrder o) o h1
    (by rw [hfaults]; exact hg) (by rw [hstate]; simp [List.lookup]) hu, rfl, o, ?_, rfl, rfl⟩
  exact unmarshalOrder_marshalOrder o ['\n'] (by decide) hlo hhi

/-- C1 at the order `{"orderId":"A100","amount":250}` of the specification, on an empty
sidecar whose publish and binding calls fail. -/
theorem create_then_get_round_trip_witness :
    ("A100" ≠ "" ∧ (0 : Int) < 250 ∧ (250 : Int) < (2 : Int) ^ 63) ∧
    ((createOrderHandler ⟨⟨none, none, some "down", some "down"⟩, ⟨[], [], []⟩, []⟩
        ⟨"POST", "/orders", marshalOrder ⟨"A100", 250⟩⟩).response.status = 202 ∧
      ∃ run, getOrderHandler (createOrderHandler
            ⟨⟨none, none, some "down", some "down"⟩, ⟨[], [], []⟩, []⟩
            ⟨"POST", "/orders", marshalOrder ⟨"A100", 250⟩⟩).client
          ⟨"GET", "/orders/" ++ "A100", []⟩ = some run ∧
        run.response.status = 200 ∧
        ∃ o2, unmarshalOrder run.response.body = .ok o2 ∧
          o2.orderId = "A100" ∧ o2.amount = 250) :=
  ⟨by decide, create_then_get_round_trip
    ⟨⟨none, none, some "down", some "down"⟩, ⟨[], [], []⟩, []⟩ ⟨"A100", 250⟩ [] rfl rfl
    (by decide) (by decide) (by decide)⟩

/-- C2. No side effects on invalid input: when the body of a POST decodes to an order whose
`orderId` is empty or whose `amount` is `<= 0`, `createOrderHandler` answers 400, issues no call
on the Dapr client, and leaves the client and the state behind it as they were. -/
theorem createOrderHandler_rejects_invalid (c : Client) (r : Request) (o : Order)
    (hm : r.method = "POST") (hd : decodeOrder r.body = .ok o)
    (hinv : o.orderId = "" ∨ o.amount ≤ 0) :
    (createOrderHandler c r).response.status = 400 ∧
      issued c (createOrderHandler c r) = [] ∧
      (createOrderHandler c r).client = c := by
  obtain ⟨h1, h2⟩ := createOrderHandler_invalid c r o hm hd hinv
  exact ⟨h1, issued_append c _ [] (by rw [h2]; simp), h2⟩

/-- C2 at the body `{"orderId":"o1","amount":-5}`. -/
theorem createOrderHandler_rejects_invalid_witness :
    (decodeOrder "\x7b\"orderId\":\"o1\",\"amount\":-5\x7d".data = .ok ⟨"o1", -5⟩ ∧
      ((⟨"o1", -5⟩ : Order).orderId = "" ∨ (⟨"o1", -5⟩ : Order).amount ≤ 0)) ∧
    ((createOrderHandler ⟨⟨none, none, none, none⟩, ⟨[], [], []⟩, []⟩
        ⟨"POST", "/orders", "\x7b\"orderId\":\"o1\",\"amount\":-5\x7d".data⟩).response.status
          = 400 ∧
      issued ⟨⟨none, none, none, none⟩, ⟨[], [], []⟩, []⟩
        (createOrderHandler ⟨⟨none, none, none, none⟩, ⟨[], [], []⟩, []⟩
          ⟨"POST", "/orders", "\x7b\"orderId\":\"o1\",\"amount\":-5\x7d".data⟩) = [] ∧
      (createOrderHandler ⟨⟨none, none, none, none⟩, ⟨[], [], []⟩, []⟩
        ⟨"POST", "/orders", "\x7b\"orderId\":\"o1\",\"amount\":-5\x7d".data⟩).client =
          ⟨⟨none, none, none, none⟩, ⟨[], [], []⟩, []⟩) :=
  ⟨⟨by decide, Or.inr (by decide)⟩,
    createOrderHandler_rejects_invalid ⟨⟨none, none, none, none⟩, ⟨[], [], []⟩, []⟩
      ⟨"POST", "/orders", "\x7b\"orderId\":\"o1\",\"amount\":-5\x7d".data⟩ ⟨"o1", -5⟩ rfl
      (by decide) (Or.inr (by decide))⟩

/-- C3. Partial-failure tolerance: when the body of a POST decodes to a valid order and the
save succeeds, `createOrderHandler` answers 202 with an empty body, having issued the save, the
publish and the receipt write, whatever the outcomes `pub` of the publish call and `bind` of
the receipt write are. -/
theorem createOrderHandler_accepts_despite_failures (sc : Sidecar) (tr : List Call)
    (get pub bind : Option String) (r : Request) (o : Order)
    (hm : r.method = "POST") (hd : decodeOrder r.body = .ok o)
    (h1 : o.orderId ≠ "") (h2 : 0 < o.amount) :
    (createOrderHandler ⟨⟨none, get, pub, bind⟩, sc, tr⟩ r).response =
        { status := 202, header := [], body := [] } ∧
      issued ⟨⟨none, get, pub, bind⟩, sc, tr⟩
        (createOrderHandler ⟨⟨none, get, pub, bind⟩, sc, tr⟩ r) =
          [saveCall o, publishCall o, receiptCall o] := by
  obtain ⟨hresp, _, htrace, _, _⟩ :=
    createOrderHandler_saved ⟨⟨none, get, pub, bind⟩, sc, tr⟩ r o hm hd h1 h2 rfl
  exact ⟨hresp, issued_append _ _ _ htrace⟩

/-- C3 at the order `{"orderId":"A100","amount":250}` with the publish and the receipt write
both failing. -/
theorem createOrderHandler_accepts_despite_failures_witness :
    (decodeOrder "\x7b\"orderId\":\"A100\",\"amount\":250\x7d".data = .ok ⟨"A100", 250⟩ ∧
      "A100" ≠ "" ∧ (0 : Int) < 250) ∧
    ((createOrderHandler ⟨⟨none, none, some "unreachable", some "denied"⟩, ⟨[], [], []⟩, []⟩
        ⟨"POST", "/orders", "\x7b\"orderId\":\"A100\",\"amount\":250\x7d".data⟩).response =
        { status := 202, header := [], body := [] } ∧
      issued ⟨⟨none, none, some "unreachable", some "denied"⟩, ⟨[], [], []⟩, []⟩
        (createOrderHandler ⟨⟨none, none, some "unreachable", some "denied"⟩, ⟨[], [], []⟩, []⟩
          ⟨"POST", "/orders", "\x7b\"orderId\":\"A100\",\"amount\":250\x7d".data⟩) =
        [saveCall ⟨"A100", 250⟩, publishCall ⟨"A100", 250⟩, receiptCall ⟨"A100", 250⟩]) :=
  ⟨⟨by decide, by decide, by decide⟩,
    createOrderHandler_accepts_despite_failures ⟨[], [], []⟩ [] none (some "unreachable")
      (some "denied") ⟨"POST", "/orders", "\x7b\"orderId\":\"A100\",\"amount\":250\x7d".data⟩
      ⟨"A100", 250⟩ rfl (by decide) (by decide) (by decide)⟩

/-- The three ways a run of `createOrderHandler` can go: it answers 405 or 400 and leaves the
client alone; the save fails and it answers 500 after the one call; the save succeeds and it
answers 202 after the three calls. -/
theorem createOrderHandler_cases (c : Client) (r : Request) :
    ((createOrderHandler c r).client = c ∧
        ((createOrderHandler c r).response.status = 405 ∨
          (createOrderHandler c r).response.status = 400)) ∨
      (∃ o err, c.faults.saveState = some err ∧
        (createOrderHandler c r).response.status = 500 ∧
        issued c (createOrderHandler c r) = [saveCall o]) ∨
      (∃ o, r.method = "POST" ∧ decodeOrder r.body = .ok o ∧ o.orderId ≠ "" ∧ 0 < o.amount ∧
        c.faults.saveState = none) := by
  by_cases hm : r.method = "POST"
  · cases hd : decodeOrder r.body with
    | error err =>
      left
      rw [createOrderHandler_undecodable c r err hm hd]
      exact ⟨rfl, Or.inr rfl⟩
    | ok o =>
      by_cases hv : o.orderId = "" ∨ o.amount ≤ 0
      · left
        obtain ⟨h1, h2⟩ := createOrderHandler_invalid c r o hm hd hv
        exact ⟨h2, Or.inr h1⟩
      · have h1 : o.orderId ≠ "" := fun h => hv (Or.inl h)
        have h2 : 0 < o.amount := by
          have : ¬ o.amount ≤ 0 := fun h => hv (Or.inr h)
          omega
        cases hs : c.faults.saveState with
        | some err =>
          right; left
          refine ⟨o, err, rfl, ?_, ?_⟩
          · rw [createOrderHandler_save_fails c r o err hm hd h1 h2 hs]; rfl
          · apply issued_append
            rw [createOrderHandler_save_fails c r o err hm hd h1 h2 hs]
        | none => right; right; exact ⟨o, hm, rfl, h1, h2, rfl⟩
  · left
    rw [createOrderHandler_not_post c r hm]
    exact ⟨rfl, Or.inl rfl⟩

/-- C4. Save gates success: when the body of a POST decodes to a valid order and the save
fails, `createOrderHandler` answers 500, the save is the only call it issued and the state
behind the sidecar is as it was; and in every run, a publish or a binding call is issued only
when the save succeeded, after the save call. -/
theorem save_gates_success (c : Client) (r : Request) :
    (∀ o err, r.method = "POST" → decodeOrder r.body = .ok o → o.orderId ≠ "" → 0 < o.amount →
      c.faults.saveState = some err →
      (createOrderHandler c r).response.status = 500 ∧
        issued c (createOrderHandler c r) = [saveCall o] ∧
        (createOrderHandler c r).client.sidecar = c.sidecar) ∧
    (∀ call ∈ issued c (createOrderHandler c r),
      ((∃ p t d, call = Call.publishEvent p t d) ∨ (∃ n op d m, call = Call.invokeBinding n op d m)) →
      c.faults.saveState = none ∧
        ∃ o, issued c (createOrderHandler c r) = [saveCall o, publishCall o, receiptCall o]) := by
  constructor
  · intro o err hm hd h1 h2 hs
    rw [createOrderHandler_save_fails c r o err hm hd h1 h2 hs]
    exact ⟨rfl, issued_append _ _ _ rfl, rfl⟩
  · intro call hcall hkind
    rcases createOrderHandler_cases c r with ⟨h, _⟩ | ⟨o, err, _, _, h⟩ | ⟨o, hm, hd, h1, h2, hs⟩
    · have : issued c (createOrderHandler c r) = [] := issued_append _ _ [] (by rw [h]; simp)
      rw [this] at hcall
      cases hcall
    · rw [h] at hcall
      simp only [List.mem_singleton] at hcall
      subst hcall
      rcases hkind with ⟨p, t, d, hk⟩ | ⟨n, op, d, m, hk⟩ <;> simp [saveCall] at hk
    · obtain ⟨_, _, htrace, _, _⟩ := createOrderHandler_saved c r o hm hd h1 h2 hs
      exact ⟨hs, o, issued_append _ _ _ htrace⟩

/-- C4 at the order `{"orderId":"A100","amount":250}` with a state store that is down. -/
theorem save_gates_success_witness :
    (decodeOrder "\x7b\"orderId\":\"A100\",\"amount\":250\x7d".data = .ok ⟨"A100", 250⟩ ∧
      "A100" ≠ "" ∧ (0 : Int) < 250) ∧
    ((createOrderHandler ⟨⟨some "store down", none, none, none⟩, ⟨[], [], []⟩, []⟩
        ⟨"POST", "/orders", "\x7b\"orderId\":\"A100\",\"amount\":250\x7d".data⟩).response.status
          = 500 ∧
      issued ⟨⟨some "store down", none, none, none⟩, ⟨[], [], []⟩, []⟩
        (createOrderHandler ⟨⟨some "store down", none, none, none⟩, ⟨[], [], []⟩, []⟩
          ⟨"POST", "/orders", "\x7b\"orderId\":\"A100\",\"amount\":250\x7d".data⟩) =
        [saveCall ⟨"A100", 250⟩] ∧
      (createOrderHandler ⟨⟨some "store down", none, none, none⟩, ⟨[], [], []⟩, []⟩
        ⟨"POST", "/orders", "\x7b\"orderId\":\"A100\",\"amount\":250\x7d".data⟩).client.sidecar =
          ⟨[], [], []⟩) :=
  ⟨⟨by decide, by decide, by decide⟩,
    (save_gates_success ⟨⟨some "store down", none, none, none⟩, ⟨[], [], []⟩, []⟩
      ⟨"POST", "/orders", "\x7b\"orderId\":\"A100\",\"amount\":250\x7d".data⟩).1
      ⟨"A100", 250⟩ "store down" rfl (by decide) (by decide) (by decide) rfl⟩

/-- C5. For every identifier under which the state store holds no value, when the read of the
store answers, `getOrderHandler` on `GET /orders/{id}` does not answer 500, and for a non-empty
identifier it answers 404 `order not found`. -/
theorem getOrderHandler_never_saved (c : Client) (id : String) (body : Bytes)
    (hg : c.faults.getState = none)
    (hl : c.sidecar.state.lookup ("statestore", id) = none) :
    ∃ run, getOrderHandler c ⟨"GET", "/orders/" ++ id, body⟩ = some run ∧
      run.response.status ≠ 500 ∧
      (id ≠ "" → run.response = httpError "order not found" 404) := by
  by_cases hid : id = ""
  · subst hid
    exact ⟨_, getOrderHandler_empty c body, by simp [httpError], fun h => absurd rfl h⟩
  · exact ⟨_, getOrderHandler_absent c id body hid hg hl, by simp [httpError], fun _ => rfl⟩

/-- C5 at the identifier `nope` on a store that holds the order `A100` only. -/
theorem getOrderHandler_never_saved_witness :
    ((none : Option String) = none ∧
      List.lookup ("statestore", "nope")
        [(("statestore", "A100"), marshalOrder ⟨"A100", 250⟩)] = none) ∧
    ∃ run, getOrderHandler
        ⟨⟨none, none, none, none⟩,
          ⟨[(("statestore", "A100"), marshalOrder ⟨"A100", 250⟩)], [], []⟩, []⟩
        ⟨"GET", "/orders/" ++ "nope", []⟩ = some run ∧
      run.response.status ≠ 500 ∧
      ("nope" ≠ "" → run.response = httpError "order not found" 404) :=
  ⟨⟨rfl, by decide⟩,
    getOrderHandler_never_saved
      ⟨⟨none, none, none, none⟩,
        ⟨[(("statestore", "A100"), marshalOrder ⟨"A100", 250⟩)], [], []⟩, []⟩
      "nope" [] rfl (by decide)⟩

/-- C10, as stated, fails for the decoded mapping: the order `{"orderId":"A100",
"amount":9223372036854775807}` is accepted with 202 and published, and `ordersHandler`, given
it as the decoded mapping, returns an unmarshal error and logs no processing; the order with
amount `9007199254740993` is accepted too and is processed with the amount
`9007199254740992`. -/
theorem accepted_order_fails_as_mapping :
    ((createOrderHandler ⟨⟨none, none, none, none⟩, ⟨[], [], []⟩, []⟩
        ⟨"POST", "/orders", marshalOrder ⟨"A100", 9223372036854775807⟩⟩).response.status = 202 ∧
      issued ⟨⟨none, none, none, none⟩, ⟨[], [], []⟩, []⟩
        (createOrderHandler ⟨⟨none, none, none, none⟩, ⟨[], [], []⟩, []⟩
          ⟨"POST", "/orders", marshalOrder ⟨"A100", 9223372036854775807⟩⟩) =
        [saveCall ⟨"A100", 9223372036854775807⟩, publishCall ⟨"A100", 9223372036854775807⟩,
          receiptCall ⟨"A100", 9223372036854775807⟩] ∧
      ordersHandler "2024-05-01 10:00:00" ⟨decodedMapping ⟨"A100", 9223372036854775807⟩⟩ =
        { retry := false
          err := some (.mismatch "number 9223372036854776000" "Order.amount of type int")
          log := ["error unmarshaling order from map: " ++ (JsonError.mismatch
            "number 9223372036854776000" "Order.amount of type int").msg] }) ∧
    ((createOrderHandler ⟨⟨none, none, none, none⟩, ⟨[], [], []⟩, []⟩
        ⟨"POST", "/orders", marshalOrder ⟨"A100", 9007199254740993⟩⟩).response.status = 202 ∧
      ordersHandler "2024-05-01 10:00:00" ⟨decodedMapping ⟨"A100", 9007199254740993⟩⟩ =
        { retry := false, err := none
          log := processedLog "2024-05-01 10:00:00" ⟨"A100", 9007199254740992⟩ }) := by
  decide

/-- C10, amended. End-to-end agreement of the two services: whenever `createOrderHandler`
answers 202, it issued the publish call for an order `o` that passed its validation (and, when
the publish succeeded, the JSON bytes of `o` are the event added to the topic); the validation
of the consumer passes on `o`; `ordersHandler`, given `o` as those JSON bytes, returns
`(false, nil)` and logs the lines of receiving and processing `o` with its `orderId` and
`amount`, not the line of a drop; and given `o` as the decoded mapping it does the same when
`amount <= 2^53`, the integers a `float64` holds exactly. -/
theorem accepted_order_is_processed (now : String) (c : Client) (r : Request)
    (h : (createOrderHandler c r).response.status = 202) :
    ∃ o, issued c (createOrderHandler c r) = [saveCall o, publishCall o, receiptCall o] ∧
      (c.faults.publishEvent = none → (createOrderHandler c r).client.sidecar.events =
        c.sidecar.events ++ [(("pubsub", "orders"), marshalOrder o)]) ∧
      (o.orderId ≠ "" ∧ 0 < o.amount) ∧
      processOrder now o = { retry := false, err := none, log := processedLog now o } ∧
      ordersHandler now ⟨.bytes (marshalOrder o)⟩ =
        { retry := false, err := none, log := processedLog now o } ∧
      (o.amount ≤ (2 : Int) ^ 53 → ordersHandler now ⟨decodedMapping o⟩ =
        { retry := false, err := none, log := processedLog now o }) ∧
      dropLine o ∉ processedLog now o := by
  rcases createOrderHandler_cases c r with ⟨_, h1 | h1⟩ | ⟨o, err, _, h1, _⟩ |
      ⟨o, hm, hd, h1, h2, hs⟩
  · rw [h1] at h; cases h
  · rw [h1] at h; cases h
  · rw [h1] at h; cases h
  · obtain ⟨hlo, hhi⟩ := decodeOrder_range r.body o hd
    obtain ⟨_, _, htrace, _, hev⟩ := createOrderHandler_saved c r o hm hd h1 h2 hs
    refine ⟨o, issued_append _ _ _ htrace, hev, ⟨h1, h2⟩, processOrder_valid now o h1 h2, ?_, ?_,
      dropLine_not_processed now o⟩
    · rw [ordersHandler_of_normalise now ⟨.bytes (marshalOrder o)⟩ o
          (normalise_bytes_marshalOrder o hlo hhi),
        processOrder_valid now o h1 h2]
    · intro h53
      have h0 : -(2 : Int) ^ 53 ≤ o.amount := by
        have : (0 : Int) ≤ 2 ^ 53 := by norm_num
        omega
      rw [ordersHandler_of_normalise now ⟨decodedMapping o⟩ o
          (normalise_decodedMapping o h0 h53),
        processOrder_valid now o h1 h2]

/-- C10, amended, at the order `{"orderId":"A100","amount":250}` of the specification. -/
theorem accepted_order_is_processed_witness :
    (createOrderHandler ⟨⟨none, none, none, none⟩, ⟨[], [], []⟩, []⟩
        ⟨"POST", "/orders", "\x7b\"orderId\":\"A100\",\"amount\":250\x7d".data⟩).response.status
          = 202 ∧
    ∃ o, issued ⟨⟨none, none, none, none⟩, ⟨[], [], []⟩, []⟩
        (createOrderHandler ⟨⟨none, none, none, none⟩, ⟨[], [], []⟩, []⟩
          ⟨"POST", "/orders", "\x7b\"orderId\":\"A100\",\"amount\":250\x7d".data⟩) =
        [saveCall o, publishCall o, receiptCall o] ∧
      ((none : Option String) = none → (createOrderHandler
          ⟨⟨none, none, none, none⟩, ⟨[], [], []⟩, []⟩
          ⟨"POST", "/orders", "\x7b\"orderId\":\"A100\",\"amount\":250\x7d".data⟩).client.sidecar.events
            = [] ++ [(("pubsub", "orders"), marshalOrder o)]) ∧
      (o.orderId ≠ "" ∧ 0 < o.amount) ∧
      processOrder "2024-05-01 10:00:00" o =
        { retry := false, err := none, log := processedLog "2024-05-01 10:00:00" o } ∧
      ordersHandler "2024-05-01 10:00:00" ⟨.bytes (marshalOrder o)⟩ =
        { retry := false, err := none, log := processedLog "2024-05-01 10:00:00" o } ∧
      (o.amount ≤ (2 : Int) ^ 53 → ordersHandler "2024-05-01 10:00:00" ⟨decodedMapping o⟩ =
        { retry := false, err := none, log := processedLog "2024-05-01 10:00:00" o }) ∧
      dropLine o ∉ processedLog "2024-05-01 10:00:00" o :=
  ⟨by decide, accepted_order_is_processed "2024-05-01 10:00:00"
    ⟨⟨none, none, none, none⟩, ⟨[], [], []⟩, []⟩
    ⟨"POST", "/orders", "\x7b\"orderId\":\"A100\",\"amount\":250\x7d".data⟩ (by decide)⟩

/-! ## The inventory service: properties -/

/-- C6, as stated, fails: for the payload `{orderId: "o1", amount: 9007199254740993}` the raw
JSON bytes normalise to that order, the decoded mapping, which holds the amount as a `float64`,
normalises to the order with amount `9007199254740992`, and the outcomes of `ordersHandler` on
the two differ. -/
theorem ordersHandler_mapping_changes_amount :
    normalise (.bytes (marshalOrder ⟨"o1", 9007199254740993⟩)) =
        some ⟨"o1", 9007199254740993⟩ ∧
      normalise (decodedMapping ⟨"o1", 9007199254740993⟩) = some ⟨"o1", 9007199254740992⟩ ∧
      ordersHandler "2024-05-01 10:00:00" ⟨.bytes (marshalOrder ⟨"o1", 9007199254740993⟩)⟩ ≠
        ordersHandler "2024-05-01 10:00:00" ⟨decodedMapping ⟨"o1", 9007199254740993⟩⟩ := by
  decide

/-- C6, amended. Dual representation in the consumer: for every order `o` whose amount is
of absolute value at most `2^53` (the integers a `float64` holds exactly), the raw JSON bytes of
`o` and the decoded mapping of `o` both normalise to `o`, and `ordersHandler` (at the same clock
reading `now`) gives the same result `(retry, err)` and the same log lines on the two, namely
those of validating and processing `o`. -/
theorem ordersHandler_bytes_eq_mapping (now : String) (o : Order)
    (hlo : -(2 : Int) ^ 53 ≤ o.amount) (hhi : o.amount ≤ (2 : Int) ^ 53) :
    normalise (.bytes (marshalOrder o)) = some o ∧ normalise (decodedMapping o) = some o ∧
      ordersHandler now ⟨.bytes (marshalOrder o)⟩ = ordersHandler now ⟨decodedMapping o⟩ ∧
      ordersHandler now ⟨decodedMapping o⟩ = processOrder now o := by
  have h63 : (2 : Int) ^ 53 < 2 ^ 63 := by norm_num
  have hb := normalise_bytes_marshalOrder o (by omega) (by omega)
  have hm := normalise_decodedMapping o hlo hhi
  refine ⟨hb, hm, ?_, ?_⟩
  · rw [ordersHandler_of_normalise now ⟨.bytes (marshalOrder o)⟩ o hb,
      ordersHandler_of_normalise now ⟨decodedMapping o⟩ o hm]
  · exact ordersHandler_of_normalise now ⟨decodedMapping o⟩ o hm

/-- C6, amended, at the payload `{orderId: "o1", amount: 50}` of the specification. -/
theorem ordersHandler_bytes_eq_mapping_witness :
    (-(2 : Int) ^ 53 ≤ (50 : Int) ∧ (50 : Int) ≤ (2 : Int) ^ 53) ∧
      (normalise (.bytes (marshalOrder ⟨"o1", 50⟩)) = some ⟨"o1", 50⟩ ∧
        normalise (decodedMapping ⟨"o1", 50⟩) = some ⟨"o1", 50⟩ ∧
        ordersHandler "2024-05-01 10:00:00" ⟨.bytes (marshalOrder ⟨"o1", 50⟩)⟩ =
          ordersHandler "2024-05-01 10:00:00" ⟨decodedMapping ⟨"o1", 50⟩⟩ ∧
        ordersHandler "2024-05-01 10:00:00" ⟨decodedMapping ⟨"o1", 50⟩⟩ =
          processOrder "2024-05-01 10:00:00" ⟨"o1", 50⟩) :=
  ⟨by decide, ordersHandler_bytes_eq_mapping "2024-05-01 10:00:00" ⟨"o1", 50⟩
    (by decide) (by decide)⟩

/-- C7. The handler `ordersHandler` returns `retry = false` for every topic event, whatever the
dynamic type and the content of its data. -/
theorem ordersHandler_never_retries (now : String) (e : TopicEvent) :
    (ordersHandler now e).retry = false :=
  ordersHandler_never_retries_aux now e

/-- C8. An event whose data normalises (from bytes or from a mapping) to an order with empty
`orderId` or with `amount <= 0` is dropped: `ordersHandler` returns `(false, nil)`, logs the one
line of the drop, and logs none of the lines of a processed order. -/
theorem ordersHandler_drops_invalid (now : String) (e : TopicEvent) (o : Order)
    (h : normalise e.data = some o) (hinv : o.orderId = "" ∨ o.amount ≤ 0) :
    ordersHandler now e = { retry := false, err := none, log := [dropLine o] } ∧
      ∀ line ∈ processedLog now o, line ∉ (ordersHandler now e).log := by
  have hrun : ordersHandler now e = { retry := false, err := none, log := [dropLine o] } := by
    rw [ordersHandler_of_normalise now e o h, processOrder_invalid now o hinv]
  refine ⟨hrun, ?_⟩
  intro line hline hmem
  rw [hrun] at hmem
  simp only [List.mem_singleton] at hmem
  subst hmem
  exact dropLine_not_processed now o hline

/-- C8 at the two payloads of the specification, `{orderId: "", amount: 50}` and
`{orderId: "o1", amount: 0}`, the first as raw bytes and the second as a mapping. -/
theorem ordersHandler_drops_invalid_witness :
    (normalise (.bytes "\x7b\"orderId\":\"\",\"amount\":50\x7d".data) = some ⟨"", 50⟩ ∧
      normalise (decodedMapping ⟨"o1", 0⟩) = some ⟨"o1", 0⟩) ∧
    (ordersHandler "2024-05-01 10:00:00" ⟨.bytes "\x7b\"orderId\":\"\",\"amount\":50\x7d".data⟩ =
        { retry := false, err := none, log := [dropLine ⟨"", 50⟩] } ∧
      ∀ line ∈ processedLog "2024-05-01 10:00:00" ⟨"", 50⟩, line ∉ (ordersHandler
        "2024-05-01 10:00:00" ⟨.bytes "\x7b\"orderId\":\"\",\"amount\":50\x7d".data⟩).log) ∧
    (ordersHandler "2024-05-01 10:00:00" ⟨decodedMapping ⟨"o1", 0⟩⟩ =
        { retry := false, err := none, log := [dropLine ⟨"o1", 0⟩] } ∧
      ∀ line ∈ processedLog "2024-05-01 10:00:00" ⟨"o1", 0⟩, line ∉ (ordersHandler
        "2024-05-01 10:00:00" ⟨decodedMapping ⟨"o1", 0⟩⟩).log) :=
  ⟨⟨by decide, by decide⟩,
    ordersHandler_drops_invalid "2024-05-01 10:00:00"
      ⟨.bytes "\x7b\"orderId\":\"\",\"amount\":50\x7d".data⟩ ⟨"", 50⟩ (by decide)
      (Or.inl (by decide)),
    ordersHandler_drops_invalid "2024-05-01 10:00:00" ⟨decodedMapping ⟨"o1", 0⟩⟩ ⟨"o1", 0⟩
      (by decide) (Or.inr (by decide))⟩

/-- C9, as stated, fails: an event whose data is a string cannot be normalised into an order,
and `ordersHandler` returns a nil error for it. -/
theorem ordersHandler_unexpected_type_nil_error :
    normalise (Dyn.str "o1") = none ∧
      ordersHandler "2024-05-01 10:00:00" ⟨Dyn.str "o1"⟩ =
        { retry := false, err := none, log := ["error: unexpected data type string"] } := by
  decide

/-- C9, amended. For every event whose data cannot be normalised into an order,
`ordersHandler` returns `retry = false` and logs none of the lines of validation or processing;
when the data is a byte block or a mapping, the error it returns is the non-nil decode error
and the one line it logs names that error; when the data is of any other dynamic type, the error
it returns is nil and the one line it logs names the unexpected type. -/
theorem ordersHandler_undecodable (now : String) (e : TopicEvent)
    (h : normalise e.data = none) :
    (ordersHandler now e).retry = false ∧
      (∀ o, ∀ line ∈ (processOrder now o).log, line ∉ (ordersHandler now e).log) ∧
      (((∃ b, e.data = .bytes b) ∨ (∃ m, e.data = .map m)) →
        ∃ err what, ordersHandler now e =
          { retry := false, err := some err, log := ["error " ++ what ++ err.msg] }) ∧
      (((∀ b, e.data ≠ .bytes b) ∧ (∀ m, e.data ≠ .map m)) →
        ordersHandler now e =
          { retry := false, err := none,
            log := ["error: unexpected data type " ++ e.data.typeName] }) := by
  have hstart : ∀ line ∈ (ordersHandler now e).log,
      lineStart line = "error un".data ∨ lineStart line = "error ma".data ∨
        lineStart line = "error: u".data := by
    intro line hline
    rcases ordersHandler_of_not_normalise now e h with ⟨err, what, hrun, hw, _⟩ | ⟨hrun, _, _⟩
    · rw [hrun] at hline
      simp only [List.mem_singleton] at hline
      subst hline
      rcases hw with rfl | rfl | rfl
      · left; simp [lineStart]
      · right; left; simp [lineStart]
      · left; simp [lineStart]
    · rw [hrun] at hline
      simp only [List.mem_singleton] at hline
      subst hline
      right; right; simp [lineStart]
  refine ⟨ordersHandler_never_retries_aux now e, ?_, ?_, ?_⟩
  · intro o line hline hmem
    have h1 := lineStart_processOrder now o line hline
    have h2 := hstart line hmem
    rcases h1 with h1 | h1 | h1 <;> rcases h2 with h2 | h2 | h2 <;>
      (rw [h1] at h2; revert h2; decide)
  · intro hd
    rcases ordersHandler_of_not_normalise now e h with ⟨err, what, hrun, _, _⟩ | ⟨_, hb, hm⟩
    · exact ⟨err, what, hrun⟩
    · rcases hd with ⟨b, hd⟩ | ⟨m, hd⟩
      · exact absurd hd (hb b)
      · exact absurd hd (hm m)
  · intro hd
    rcases ordersHandler_of_not_normalise now e h with ⟨err, what, _, _, hk⟩ | ⟨hrun, _, _⟩
    · rcases hk with ⟨b, hk⟩ | ⟨m, hk⟩
      · exact absurd hk (hd.1 b)
      · exact absurd hk (hd.2 m)
    · exact hrun

/-- C9, amended, at an event whose data is bytes that are not JSON. -/
theorem ordersHandler_undecodable_witness :
    normalise (.bytes "not json".data) = none ∧
    ((ordersHandler "2024-05-01 10:00:00" ⟨.bytes "not json".data⟩).retry = false ∧
      (∀ o, ∀ line ∈ (processOrder "2024-05-01 10:00:00" o).log,
        line ∉ (ordersHandler "2024-05-01 10:00:00" ⟨.bytes "not json".data⟩).log) ∧
      (((∃ b, Dyn.bytes "not json".data = .bytes b) ∨
          (∃ m, Dyn.bytes "not json".data = .map m)) →
        ∃ err what, ordersHandler "2024-05-01 10:00:00" ⟨.bytes "not json".data⟩ =
          { retry := false, err := some err, log := ["error " ++ what ++ err.msg] }) ∧
      (((∀ b, Dyn.bytes "not json".data ≠ .bytes b) ∧
          (∀ m, Dyn.bytes "not json".data ≠ .map m)) →
        ordersHandler "2024-05-01 10:00:00" ⟨.bytes "not json".data⟩ =
          { retry := false, err := none,
            log := ["error: unexpected data type " ++ (Dyn.bytes "not json".data).typeName] })) :=
  ⟨by decide, ordersHandler_undecodable "2024-05-01 10:00:00" ⟨.bytes "not json".data⟩
    (by decide)⟩

end DaprByExample
